import Mathlib

set_option maxRecDepth 40000

/-!
Verification development for the conductor core of a bare-metal provisioning
service (rackerlabs/ironic).  The definitions below are shallow embeddings of
the Python sources:

* `ironic/conductor/manager.py` — `do_node_deploy`, `_do_node_deploy`,
  `_do_node_tear_down`, `_check_deploy_timeouts`, `validate_driver_interfaces`,
  `_spawn_worker`.
* `ironic/drivers/modules/agent.py` — `_heartbeat`, `_get_mac_addresses`,
  `_find_node_by_macs`, `_find_ports_by_macs`, `_get_node_id`,
  `_save_hardware`.
* `ironic/drivers/modules/agent_utils.py` — `flatten_dict`, `unflatten_dict`.
* `ironic/drivers/modules/agent_client.py` — `deploy_is_done`.
* `ironic/common/glance_service/v2/image_service.py` — `swift_temp_url`,
  `_validate_temp_url_config`, `_swift_url_fragments`.

Machine integers are modelled as `Nat`/`Int` with explicit `% 2^32` where the
code (SHA-1) depends on 32-bit wraparound.  Python exceptions are modelled with
`Except`; `None` as `Option.none`.  Python dictionaries are modelled as
association lists in insertion order (`insertKV` replaces an existing key in
place and appends a fresh key, exactly like CPython dict assignment; iteration
follows list order).
-/

namespace Ironic

/-! ### Python string primitives used by the embedded code -/

/-- Decimal value of a digit list, most significant digit first. -/
def digitsVal (ds : List Char) : Nat :=
  ds.foldl (fun acc c => 10 * acc + (c.toNat - 48)) 0

/-- Parse a nonempty all-digit character list, as the digit part of Python
`int()`. -/
def pyParseDigits (ds : List Char) : Option Nat :=
  if ds.isEmpty then none
  else if ds.all Char.isDigit then some (digitsVal ds) else none

/-- Strip leading and trailing whitespace, as Python `int()` does before
parsing. -/
def pyStrip (cs : List Char) : List Char :=
  ((cs.dropWhile Char.isWhitespace).reverse.dropWhile Char.isWhitespace).reverse

/-- Model of Python `int(s)` on strings: optional surrounding whitespace, an
optional single sign, then a nonempty run of decimal digits. -/
def pyParseInt (s : String) : Option Int :=
  match pyStrip s.data with
  | [] => none
  | c :: rest =>
    if c = '-' then (pyParseDigits rest).map (fun n => -(n : Int))
    else if c = '+' then (pyParseDigits rest).map (fun n => (n : Int))
    else (pyParseDigits (c :: rest)).map (fun n => (n : Int))

/-- Digits of `n`, most significant first; `fuel`-driven so that the kernel can
evaluate it (the fuel is always at least the value, which suffices since the
value shrinks by a factor of ten each step). -/
def natCharsAux : Nat → Nat → List Char
  | 0, _ => []
  | fuel + 1, n =>
    if n = 0 then [] else natCharsAux fuel (n / 10) ++ [Char.ofNat (48 + n % 10)]

/-- Decimal rendering of a natural number, as Python `str` on a non-negative
int. -/
def natStr (n : Nat) : String :=
  if n = 0 then "0" else String.mk (natCharsAux (n + 1) n)

/-- Decimal rendering of an integer, as Python `str` on an int. -/
def intStr (n : Int) : String :=
  if n < 0 then "-" ++ natStr n.natAbs else natStr n.toNat

/-- `s.split(sep)` on character lists: split at every separator occurrence,
never collapsing; the empty list yields `[[]]`, like `''.split(sep) == ['']`. -/
def splitChars (sep : Char) : List Char → List (List Char)
  | [] => [[]]
  | c :: rest =>
    match splitChars sep rest with
    | [] => []
    | s :: ss => if c = sep then [] :: s :: ss else (c :: s) :: ss

/-- Python `s.split(sep)` for a one-character separator. -/
def pySplit (s : String) (sep : Char) : List String :=
  (splitChars sep s.data).map String.mk

/-! ### JSON-style payload values

The agent lookup/heartbeat payloads and the node's `extra`/`driver_info`
columns hold JSON data: strings, ints, dicts and lists.  Dicts are association
lists in insertion order. -/

inductive Json where
  | str (s : String)
  | int (n : Int)
  | obj (entries : List (String × Json))
  | arr (elems : List Json)
deriving Repr

/-- Python truthiness of a JSON value (`''`, `0`, `{}`, `[]` are falsy). -/
def Json.truthy : Json → Bool
  | .str s => ¬s.isEmpty
  | .int n => n ≠ 0
  | .obj o => ¬o.isEmpty
  | .arr l => ¬l.isEmpty

/-- CPython dict assignment `d[k] = v` on an insertion-ordered association
list: replace in place if the key exists, append otherwise. -/
def insertKV : List (String × Json) → String → Json → List (String × Json)
  | [], k, v => [(k, v)]
  | (k0, v0) :: rest, k, v =>
    if k0 = k then (k0, v) :: rest else (k0, v0) :: insertKV rest k v

/-- Python `d.get(k)`. -/
def lookupKV : List (String × Json) → String → Option Json
  | [], _ => none
  | (k0, v0) :: rest, k => if k0 = k then some v0 else lookupKV rest k

/-! ### `agent_utils.flatten_dict`

Depth-first flattening of a nested dictionary into path-keyed form,
`{'a': {'b': ['c', 'd']}} -> {'a/b/0': 'c', 'a/b/1': 'd'}`.  String leaves are
stored as they are; int leaves are stored as `str(item)`; any other leaf falls
through both base cases and both recursive cases and is dropped.  The
`if path:` guard that appends the separator before recursing is kept
verbatim. -/

mutual
def flatten_dict (item : Json) (path : String) : List (String × Json) :=
  match item with
  | .str s => [(path, .str s)]
  | .int n => [(path, .str (intStr n))]
  | .obj o => flattenEntries o (if path = "" then path else path ++ "/")
  | .arr l => flattenElems l 0 (if path = "" then path else path ++ "/")

def flattenEntries (o : List (String × Json)) (p : String) : List (String × Json) :=
  match o with
  | [] => []
  | (k, v) :: rest => flatten_dict v (p ++ k) ++ flattenEntries rest p

def flattenElems (l : List Json) (i : Nat) (p : String) : List (String × Json) :=
  match l with
  | [] => []
  | v :: rest => flatten_dict v (p ++ natStr i) ++ flattenElems rest (i + 1) p
end

/-! ### `agent_utils.unflatten_dict`

The source walks every flattened key with a one-key lookahead, mutating nested
dicts and lists in place.  `unflattenStep` reproduces the walk for one
flattened entry; branches where the source would raise (`TypeError` /
`AttributeError` / negative indices, none of which `flatten_dict` can produce)
leave the dictionary unchanged. -/

/-- `array += [{} for _ in range(n - len(array))]`: pad a list with fresh empty
dicts up to length `n`. -/
def padObjs (a : List Json) (n : Nat) : List Json :=
  a ++ List.replicate (n - a.length) (Json.obj [])

def unflattenStep (d : List (String × Json)) (keys : List String) (v : Json) :
    List (String × Json) :=
  match keys with
  | [] => d
  | [k] =>
    match pyParseInt k with
    | some _ => d
    | none => insertKV d k v
  | k :: k2 :: rest =>
    match pyParseInt k with
    | some _ => d
    | none =>
      match pyParseInt k2 with
      | none =>
        match lookupKV d k with
        | some (.obj o) => insertKV d k (.obj (unflattenStep o (k2 :: rest) v))
        | none => insertKV d k (.obj (unflattenStep [] (k2 :: rest) v))
        | some _ => d
      | some i =>
        if i < 0 then d
        else
          let idx := i.toNat
          let arr0 : Option (List Json) :=
            match lookupKV d k with
            | some (.arr a) => some a
            | none => some []
            | some (.obj o) => if o.isEmpty then some [] else none
            | some (.str s) => if s.isEmpty then some [] else none
            | some (.int m) => if m = 0 then some [] else none
          match arr0 with
          | none => d
          | some a0 =>
            let a1 := padObjs a0 (idx + 1)
            match rest with
            | [] => insertKV d k (.arr a1)
            | k3 :: rest2 =>
              match pyParseInt k3 with
              | some _ => insertKV d k (.arr a1)
              | none =>
                match a1.getD idx (Json.obj []) with
                | .obj eo =>
                  insertKV d k
                    (.arr (a1.set idx (.obj (unflattenStep eo (k3 :: rest2) v))))
                | _ => d

/-- `unflatten_dict(flattened, separator='/')`: fold every flattened entry into
an initially empty dictionary. -/
def unflatten_dict (flattened : List (String × Json))
    (separator : Char := '/') : List (String × Json) :=
  flattened.foldl (fun d kv => unflattenStep d (pySplit kv.1 separator) kv.2) []

/-! ### States, error kinds and nodes

`ironic/common/states.py` is not among the sources; the enumeration is the one
given by the spec (§3, §4.2: `nostate, deploying, deploywait, active,
deployfail, deletefail, deleting, deleted, error`, target `deploydone`) plus
the `DECOMMISSIONING`/`DECOMMISSIONED` values used by the agent driver.  In the
source `NOSTATE` is `None`; representing the enumeration as an inductive type
keeps the `is not states.NOSTATE` identity test faithful. -/

inductive ProvisionState where
  | nostate
  | deploying
  | deploywait
  | deploydone
  | active
  | deployfail
  | deletefail
  | deleting
  | deleted
  | error
  | decommissioning
  | decommissioned
deriving DecidableEq, Repr

/-- The exception kinds raised by the embedded code paths
(`ironic/common/exception.py` classes). -/
inductive Exc where
  | NodeLocked
  | NodeNotFound
  | PortNotFound
  | NodeInMaintenance
  | InstanceDeployFailure
  | NoFreeConductorWorker
  | InvalidParameterValue
  | UnsupportedDriverExtension
  | InvalidMAC
  | ImageUnacceptable
  | IronicException
deriving DecidableEq, Repr

/-- The node row, restricted to the columns the embedded operations read or
write. -/
structure Node where
  id : Nat := 0
  uuid : String := ""
  driver : String := ""
  provision_state : ProvisionState := .nostate
  target_provision_state : ProvisionState := .nostate
  last_error : Option String := none
  maintenance : Bool := false
  reservation : Option String := none
  provision_updated_at : Int := 0
  instance_info : List (String × Json) := []
  driver_info : List (String × Json) := []
  extra : List (String × Json) := []
deriving Repr

/-! ### TaskManager acquire/release

`TaskManager(context, node_id, shared=False)` writes the conductor's hostname
into `reservation` atomically and fails with `NodeLocked` when a non-null
reservation exists; `release_resources` clears it. -/

def task_acquire (host : String) (node : Node) : Except Exc Node :=
  match node.reservation with
  | some _ => .error .NodeLocked
  | none => .ok { node with reservation := some host }

def task_release (node : Node) : Node := { node with reservation := none }

/-! ### `ConductorManager.do_node_deploy`

Inputs that the source obtains from collaborators are passed explicitly: the
outcome of `task.driver.deploy.validate` and whether `_spawn_worker` finds a
free slot (`self._worker_pool.free()`; a full pool raises
`NoFreeConductorWorker`).  The result is the RPC outcome, the node row as left
in the database, and whether a deploy worker was spawned. -/

def do_node_deploy (host : String) (node : Node)
    (validateOutcome : Except Exc Unit) (poolHasFree : Bool) :
    Except Exc Unit × Node × Bool :=
  match task_acquire host node with
  | .error e => (.error e, node, false)
  | .ok locked =>
    if locked.provision_state ≠ .nostate then
      (.error .InstanceDeployFailure, task_release locked, false)
    else if locked.maintenance then
      (.error .NodeInMaintenance, task_release locked, false)
    else
      match validateOutcome with
      | .error .InvalidParameterValue =>
        (.error .InstanceDeployFailure, task_release locked, false)
      | .error e => (.error e, task_release locked, false)
      | .ok _ =>
        let saved := { locked with
          provision_state := .deploying,
          target_provision_state := .deploydone,
          last_error := none }
        if poolHasFree then (.ok (), saved, true)
        else (.error .NoFreeConductorWorker, task_release saved, false)

/-! ### The asynchronous deploy and tear-down workers

`_do_node_deploy` runs `driver.deploy.prepare` then `driver.deploy.deploy`;
`_do_node_tear_down` runs `clean_up` then `tear_down`.  The combined driver
outcome is passed as an `Except`: an exception message, or the state the driver
returned.  The node is saved in the `finally` block in all cases. -/

def do_node_deploy_worker (node : Node)
    (driverOutcome : Except String ProvisionState) : Node :=
  match driverOutcome with
  | .error e =>
    { node with
      last_error := some ("Failed to deploy. Error: " ++ e),
      provision_state := .deployfail, target_provision_state := .nostate }
  | .ok newState =>
    if newState = .deploydone then
      { node with target_provision_state := .nostate, provision_state := .active }
    else
      { node with provision_state := newState }

def do_node_tear_down_worker (node : Node)
    (driverOutcome : Except String ProvisionState) : Node :=
  match driverOutcome with
  | .error e =>
    { node with
      last_error := some ("Failed to tear down. Error: " ++ e),
      provision_state := .error, target_provision_state := .nostate }
  | .ok newState =>
    if newState = .deleted then
      { node with target_provision_state := .nostate, provision_state := .nostate }
    else
      { node with provision_state := newState }

/-! ### `ConductorManager._check_deploy_timeouts`

The sweep returns immediately when `deploy_callback_timeout` is falsy.
Otherwise the DB query filters out reserved and maintenance nodes, the loop
keeps nodes mapped to this conductor in `deploywait` whose
`provision_updated_at` is at most `now - timeout`, marks them failed, and
spawns `cleanup_after_timeout`; on `NoFreeConductorWorker` the lock is
released and no worker runs. -/

structure SweepEnv where
  host : String := "conductor-1"
  deploy_callback_timeout : Nat := 1800
  now : Int := 0
  poolHasFree : Bool := true
  /-- Whether `self.driver_rings[driver].get_hosts(uuid)` contains this host
  (driver first, node uuid second). -/
  mapped : String → String → Bool := fun _ _ => true

/-- One iteration of the sweep loop body: the node row afterwards, and
`some uuid` when a clean-up worker was spawned for it. -/
def sweepOne (env : SweepEnv) (node : Node) : Node × Option String :=
  if node.reservation.isSome || node.maintenance then (node, none)
  else if ¬env.mapped node.driver node.uuid then (node, none)
  else if node.provision_state = .deploywait ∧
      node.provision_updated_at ≤ env.now - (env.deploy_callback_timeout : Int) then
    ({ node with
       provision_state := .deployfail,
       target_provision_state := .nostate,
       last_error := some ("Timeout reached when waiting callback for node "
         ++ node.uuid) },
     if env.poolHasFree then some node.uuid else none)
  else (node, none)

/-- The whole periodic sweep over the node table: the table afterwards and the
uuids for which a clean-up worker was spawned. -/
def check_deploy_timeouts (env : SweepEnv) (nodes : List Node) :
    List Node × List String :=
  if env.deploy_callback_timeout = 0 then (nodes, [])
  else (nodes.map (fun n => (sweepOne env n).1),
        nodes.filterMap (fun n => (sweepOne env n).2))

/-! ### MAC validation and the agent lookup (`agent.py`)

`ironic/common/utils.validate_and_normalize_mac` is not among the sources. -/

/-- Lowercase every character of a string (`address.lower()`). -/
def macLower (s : String) : String := String.mk (s.data.map Char.toLower)

/-- Lowercase hexadecimal digit. -/
def isHexLower (c : Char) : Bool := c.isDigit || ('a' ≤ c && c ≤ 'f')

/-- A string already in the normalized MAC form `aa:bb:cc:dd:ee:ff`
(six lowercase-hex octet pairs joined by colons). -/
def isNormalizedMac (s : String) : Bool :=
  match s.data with
  | [a1, a2, ':', b1, b2, ':', c1, c2, ':', d1, d2, ':', e1, e2, ':', f1, f2] =>
    [a1, a2, b1, b2, c1, c2, d1, d2, e1, e2, f1, f2].all isHexLower
  | _ => false

/-- Modelled from the spec: `ironic/common/utils.is_valid_mac` is not among the
sources; per the spec (§4.6 lookup), MACs are matched against the
`aa:bb:cc:dd:ee:ff` colon form after lowercasing (the source applies
`re.match("[0-9a-f]{2}(:[0-9a-f]{2}){5}$", address.lower())`). -/
def is_valid_mac (s : String) : Bool := isNormalizedMac (macLower s)

/-- Modelled from the spec: `ironic/common/utils.validate_and_normalize_mac` is
not among the sources; per the spec, MACs are normalized to lowercase colon
form, and malformed addresses raise `InvalidMAC`. -/
def validate_and_normalize_mac (s : String) : Except Exc String :=
  if is_valid_mac s then .ok (macLower s) else .error .InvalidMAC

/-- `AgentVendorInterface._get_mac_addresses`: collect
`interface.get('mac_address')` from every interface, normalizing each one and
skipping (with a warning) any that raises `InvalidMAC`.  A missing or
non-string `mac_address` fails the `isinstance` check inside `is_valid_mac`
and is likewise skipped. -/
def get_mac_addresses (interfaces : List (List (String × Json))) : List String :=
  interfaces.filterMap (fun iface =>
    match lookupKV iface "mac_address" with
    | some (.str m) =>
      match validate_and_normalize_mac m with
      | .ok norm => some norm
      | .error _ => none
    | _ => none)

/-- A port row: the normalized MAC address and the owning node's id. -/
structure Port where
  address : String
  node_id : Nat
  uuid : String := ""
deriving DecidableEq, Repr

/-- The slice of the repository the lookup path reads. -/
structure LookupDB where
  ports : List Port
  nodes : List Node

/-- Modelled from the spec: `dbapi.get_port(port_id=mac)` (the DB layer is not
among the sources) resolves a MAC address to its port, MACs being globally
unique per the spec (§3 Port). -/
def get_port (db : LookupDB) (mac : String) : Except Exc Port :=
  match db.ports.find? (fun p => p.address == mac) with
  | some p => .ok p
  | none => .error .PortNotFound

/-- `AgentVendorInterface._find_ports_by_macs`: look every MAC up, keeping the
hits and logging the misses. -/
def find_ports_by_macs (db : LookupDB) (macs : List String) : List Port :=
  macs.filterMap (fun mac =>
    match get_port db mac with
    | .ok p => some p
    | .error _ => none)

/-- `AgentVendorInterface._get_node_id`: the node id shared by all ports, or
`NodeNotFound` when the ports span more than one node.  (`set().pop()` on an
empty port list would raise `KeyError`; the caller guards against it.) -/
def get_node_id (ports : List Port) : Except Exc Nat :=
  if ((ports.map Port.node_id).dedup).length > 1 then .error .NodeNotFound
  else
    match ports with
    | [] => .error .NodeNotFound
    | p :: _ => .ok p.node_id

/-- `Node.get_by_id` against the repository. -/
def node_get_by_id (db : LookupDB) (nid : Nat) : Except Exc Node :=
  match db.nodes.find? (fun n => n.id == nid) with
  | some n => .ok n
  | none => .error .NodeNotFound

/-- `AgentVendorInterface._find_node_by_macs`. -/
def find_node_by_macs (db : LookupDB) (macs : List String) : Except Exc Node :=
  let ports := find_ports_by_macs db macs
  if ports.isEmpty then .error .NodeNotFound
  else
    match get_node_id ports with
    | .error e => .error e
    | .ok nid => node_get_by_id db nid

/-- Every port references an existing node row. -/
def dbWellFormed (db : LookupDB) : Prop :=
  ∀ p ∈ db.ports, ∃ n ∈ db.nodes, n.id = p.node_id

/-! ### `ConductorManager.validate_driver_interfaces`

`BaseDriver` declares `core_interfaces = ['power', 'deploy']` and
`standard_interfaces = ['console', 'management']`; each attribute may be
`None`.  A present interface's `validate` outcome is passed in as data:
`.ok ()` when it passes, `.error e` when it raises `e`. -/

def core_interfaces : List String := ["power", "deploy"]
def standard_interfaces : List String := ["console", "management"]

structure Driver where
  power : Option (Except Exc Unit) := none
  deploy : Option (Except Exc Unit) := none
  console : Option (Except Exc Unit) := none
  management : Option (Except Exc Unit) := none

/-- `getattr(task.driver, iface_name, None)`. -/
def getIface (d : Driver) : String → Option (Except Exc Unit)
  | "power" => d.power
  | "deploy" => d.deploy
  | "console" => d.console
  | "management" => d.management
  | _ => none

/-- Rendering of `str(e)` for the two exception kinds the aggregation
catches. -/
def excStr : Exc → String
  | .InvalidParameterValue => "Invalid parameter value"
  | .UnsupportedDriverExtension => "Unsupported driver extension"
  | _ => "error"

/-- One aggregated entry: `{'result': ..., 'reason': ...?}`.  `result` stays
`None` when the driver does not have the interface. -/
structure VRes where
  result : Option Bool
  reason : Option String
deriving DecidableEq, Repr

/-- The per-interface loop body of `validate_driver_interfaces`: `result` and
`reason` both start as `None`; only `InvalidParameterValue` and
`UnsupportedDriverExtension` are caught, any other exception propagates out of
the RPC method. -/
def validateIfaces (d : Driver) : List String → Except Exc (List (String × VRes))
  | [] => .ok []
  | name :: rest =>
    match getIface d name with
    | none =>
      match validateIfaces d rest with
      | .error e => .error e
      | .ok tail => .ok ((name, ⟨none, some "not supported"⟩) :: tail)
    | some (.ok _) =>
      match validateIfaces d rest with
      | .error e => .error e
      | .ok tail => .ok ((name, ⟨some true, none⟩) :: tail)
    | some (.error e) =>
      if e = .InvalidParameterValue ∨ e = .UnsupportedDriverExtension then
        match validateIfaces d rest with
        | .error e2 => .error e2
        | .ok tail => .ok ((name, ⟨some false, some (excStr e)⟩) :: tail)
      else .error e

/-- `ConductorManager.validate_driver_interfaces`: iterate
`core_interfaces + standard_interfaces` and aggregate. -/
def validate_driver_interfaces (d : Driver) :
    Except Exc (List (String × VRes)) :=
  validateIfaces d (core_interfaces ++ standard_interfaces)

/-! ### The agent heartbeat (`agent.py` / `agent_client.py`)

External collaborators (the agent's command list, the Glance/Swift call, the
`prepare_image` RPC, the reboot action sequence, the power-off action) are
passed in as oracle outcomes; the dispatch logic, the `driver_info` writes and
all state transitions are embedded from the source. -/

/-- One entry of `GET {agent_url}/v1/commands` (`command_error` is meaningful
for `FAILED` commands). -/
structure AgentCommand where
  command_name : String
  command_status : String
  command_error : String := ""
deriving DecidableEq, Repr

/-- `AgentClient.deploy_is_done`. -/
def deploy_is_done (commands : List AgentCommand) : Bool :=
  match commands.getLast? with
  | none => false
  | some last_command =>
    if last_command.command_name ≠ "prepare_image" then false
    else if last_command.command_status ≠ "RUNNING" then true
    else false

/-- Oracle outcomes for the heartbeat's external calls. -/
structure HBEnv where
  /-- What `get_commands_status` returns. -/
  commands : List AgentCommand := []
  /-- `glance.show` plus `swift_temp_url` for `_continue_deploy`. -/
  glance_url : Except String String := .ok ""
  /-- The `prepare_image` RPC outcome. -/
  prepare_image : Except String Unit := .ok ()
  /-- The power/network/BMC sequence in `_reboot_to_instance`. -/
  reboot_sequence : Except String Unit := .ok ()
  /-- `node_power_action(task, POWER_OFF)` inside `_set_failed_state`. -/
  power_off : Except String Unit := .ok ()

/-- `agent._set_failed_state`: move to `deployfail`, power off (tolerating
failure, which replaces the message), and set `last_error` afterwards because
`node_power_action` erases it. -/
def set_failed_state (node : Node) (env : HBEnv) (msg : String) : Node :=
  let n1 := { node with provision_state := .deployfail,
                        target_provision_state := .nostate }
  let failMsg :=
    match env.power_off with
    | .ok _ => msg
    | .error _ => "Node " ++ node.uuid ++ " failed to power off while " ++
        "handling deploy failure. This may be a serious condition. Node " ++
        "should be removed from Ironic or put in maintenance mode until the " ++
        "problem is resolved."
  { n1 with last_error := some failMsg }

/-- `AgentVendorInterface._continue_tear_down`: finish decom and manually set
`NOSTATE`. -/
def continue_tear_down (node : Node) : Node :=
  { node with provision_state := .nostate, target_provision_state := .nostate }

/-- `AgentVendorInterface._continue_deploy`: record `deploying`, then resolve
the image and issue `prepare_image`; either external call may raise, which
propagates to the heartbeat's catch-all.  Returns the node row, the agent
commands issued, and the raised exception message if any. -/
def continue_deploy (node : Node) (env : HBEnv) :
    Node × List String × Option String :=
  let n1 := { node with provision_state := .deploying }
  match env.glance_url with
  | .error e => (n1, [], some e)
  | .ok _ =>
    match env.prepare_image with
    | .error e => (n1, [], some e)
    | .ok _ => (n1, ["prepare_image"], none)

/-- `AgentVendorInterface._check_deploy_success`: the last command's error when
it `FAILED`.  (The source indexes `[-1]` unguarded; it is only called once
`deploy_is_done` holds, so the list is nonempty.) -/
def check_deploy_success (commands : List AgentCommand) : Option String :=
  match commands.getLast? with
  | none => none
  | some command =>
    if command.command_status = "FAILED" then some command.command_error
    else none

/-- `AgentVendorInterface._reboot_to_instance`: on a failed `prepare_image`,
record `deployfail` with the agent's error; otherwise run the power/network/BMC
sequence (failures propagate to the heartbeat's catch-all) and go `active`. -/
def reboot_to_instance (node : Node) (env : HBEnv) :
    Node × List String × Option String :=
  match check_deploy_success env.commands with
  | some err =>
    ({ node with provision_state := .deployfail,
                 target_provision_state := .nostate,
                 last_error := some err }, [], none)
  | none =>
    match env.reboot_sequence with
    | .error e => (node, [], some e)
    | .ok _ =>
      ({ node with provision_state := .active,
                   target_provision_state := .nostate }, [], none)

/-- `AgentVendorInterface._heartbeat`: update
`driver_info['agent_last_heartbeat']` (as `int(time.time())`) and
`driver_info['agent_url']`, save, then dispatch on `provision_state`; any
exception from an async branch is caught and routed to `_set_failed_state`
with the branch's message.  Returns the node row and the agent commands
issued. -/
def heartbeat (node : Node) (agent_url : String) (now : Int) (env : HBEnv) :
    Node × List String :=
  let di := insertKV (insertKV node.driver_info "agent_last_heartbeat" (.int now))
    "agent_url" (.str agent_url)
  let n0 := { node with driver_info := di }
  if n0.provision_state = .decommissioning then
    (continue_tear_down n0, [])
  else if n0.provision_state = .deploywait then
    match continue_deploy n0 env with
    | (n1, cmds, some _) =>
      (set_failed_state n1 env "Node failed to get image for deploy.", cmds)
    | (n1, cmds, none) => (n1, cmds)
  else if n0.provision_state = .deploying ∧ deploy_is_done env.commands then
    match reboot_to_instance n0 env with
    | (n1, cmds, some _) =>
      (set_failed_state n1 env "Node failed to move to active state.", cmds)
    | (n1, cmds, none) => (n1, cmds)
  else
    (n0, [])

/-! ### SHA-1 and HMAC-SHA1

Executable models of `hashlib.sha1` and `hmac.new(key, msg, sha1)` over byte
lists, with 32-bit words as `Nat` reduced modulo `2^32`. -/

/-- `2^32`. -/
def M32 : Nat := 4294967296

/-- Left-rotate a 32-bit word by `n` (for a word already below `2^32`, the
shifted-out high bits and the wrapped-in low bits are disjoint, so the rotation
is the sum below). -/
def rotl (n : Nat) (x : Nat) : Nat :=
  (x * 2 ^ n + x / 2 ^ (32 - n)) % M32

/-- The SHA-1 round function (`ch`, `parity`, `maj`, `parity`); `¬b` on 32 bits
is `M32 - 1 - b`. -/
def sha1F (t : Nat) (b c d : Nat) : Nat :=
  if t < 20 then ((b &&& c) ||| ((M32 - 1 - b) &&& d)) % M32
  else if t < 40 then (b ^^^ c) ^^^ d
  else if t < 60 then (b &&& c) ||| (b &&& d) ||| (c &&& d)
  else (b ^^^ c) ^^^ d

/-- The SHA-1 round constants. -/
def sha1K (t : Nat) : Nat :=
  if t < 20 then 0x5A827999
  else if t < 40 then 0x6ED9EBA1
  else if t < 60 then 0x8F1BBCDC
  else 0xCA62C1D6

/-- Big-endian 4-byte groups to 32-bit words. -/
def bytesToWords : List Nat → List Nat
  | a :: b :: c :: d :: rest => (a * 16777216 + b * 65536 + c * 256 + d) :: bytesToWords rest
  | _ => []

/-- Extend 16 schedule words to 80, keeping the accumulator reversed (so
`w[t-3]` is at index 2, `w[t-8]` at 7, `w[t-14]` at 13, `w[t-16]` at 15). -/
def sha1Schedule : Nat → List Nat → List Nat
  | 0, w => w.reverse
  | fuel + 1, w =>
    let x := rotl 1 (((w.getD 2 0) ^^^ (w.getD 7 0)) ^^^ ((w.getD 13 0) ^^^ (w.getD 15 0)))
    sha1Schedule fuel (x :: w)

/-- The 80 compression rounds over the schedule words. -/
def sha1Rounds : Nat → List Nat → Nat × Nat × Nat × Nat × Nat → Nat × Nat × Nat × Nat × Nat
  | _, [], st => st
  | t, wt :: rest, (a, b, c, d, e) =>
    let tmp := (rotl 5 a + sha1F t b c d + e + sha1K t + wt) % M32
    sha1Rounds (t + 1) rest (tmp, a, rotl 30 b, c, d)

/-- Process the padded message 64 bytes at a time (the fuel, instantiated with
the message length, bounds the number of chunks). -/
def sha1Chunks : Nat → List Nat → Nat × Nat × Nat × Nat × Nat → Nat × Nat × Nat × Nat × Nat
  | 0, _, h => h
  | _, [], h => h
  | fuel + 1, bytes, (h0, h1, h2, h3, h4) =>
    let w := sha1Schedule 64 (bytesToWords (bytes.take 64)).reverse
    let (a, b, c, d, e) := sha1Rounds 0 w (h0, h1, h2, h3, h4)
    sha1Chunks fuel (bytes.drop 64)
      ((h0 + a) % M32, (h1 + b) % M32, (h2 + c) % M32, (h3 + d) % M32, (h4 + e) % M32)

/-- The 8-byte big-endian bit length trailer. -/
def lenBytes (n : Nat) : List Nat :=
  [n / 2 ^ 56 % 256, n / 2 ^ 48 % 256, n / 2 ^ 40 % 256, n / 2 ^ 32 % 256,
   n / 2 ^ 24 % 256, n / 2 ^ 16 % 256, n / 2 ^ 8 % 256, n % 256]

/-- SHA-1 padding: `0x80`, zeros to 56 mod 64, then the bit length. -/
def sha1Pad (msg : List Nat) : List Nat :=
  let l := msg.length
  let padLen := (55 + 64 - l % 64) % 64 + 1
  msg ++ 128 :: List.replicate (padLen - 1) 0 ++ lenBytes (8 * l)

/-- A 32-bit word as four big-endian bytes. -/
def wordBytes (w : Nat) : List Nat :=
  [w / 16777216 % 256, w / 65536 % 256, w / 256 % 256, w % 256]

/-- `hashlib.sha1(msg).digest()`. -/
def sha1 (msg : List Nat) : List Nat :=
  let padded := sha1Pad msg
  let (h0, h1, h2, h3, h4) := sha1Chunks padded.length padded
    (0x67452301, 0xEFCDAB89, 0x98BADCFE, 0x10325476, 0xC3D2E1F0)
  wordBytes h0 ++ wordBytes h1 ++ wordBytes h2 ++ wordBytes h3 ++ wordBytes h4

/-- `s.encode()`: the code points of the string; the strings signed here
(HTTP methods, decimal numbers, URL paths) are ASCII, where UTF-8 bytes and
code points coincide. -/
def strBytes (s : String) : List Nat := s.data.map Char.toNat

/-- Lowercase hexadecimal digit of a nibble. -/
def hexChar (n : Nat) : Char :=
  if n < 10 then Char.ofNat (48 + n) else Char.ofNat (87 + n)

/-- `.hexdigest()`: lowercase hex of a byte list. -/
def hexdigest (bytes : List Nat) : String :=
  String.mk (bytes.flatMap (fun b => [hexChar (b / 16), hexChar (b % 16)]))

/-- `hmac.new(key, msg, hashlib.sha1).digest()`. -/
def hmac_sha1 (key msg : List Nat) : List Nat :=
  let k0 := if key.length > 64 then sha1 key else key
  let k1 := k0 ++ List.replicate (64 - k0.length) 0
  sha1 ((k1.map (fun b => b ^^^ 92)) ++ sha1 ((k1.map (fun b => b ^^^ 54)) ++ msg))

/-! ### `GlanceImageService.swift_temp_url` (`v2/image_service.py`) -/

/-- The `[glance]` configuration options the method reads (string options
default to `None`). -/
structure GlanceConf where
  swift_temp_url_key : Option String := none
  swift_temp_url_methods : List String := ["GET"]
  swift_temp_url_duration : Option Int := some 3600
  swift_scheme : Option String := none
  swift_endpoint_url : Option String := none
  swift_path : Option String := none
  swift_backend_container : Option String := none

/-- The slice of the Glance image record the method reads:
`image_info['properties'].get('direct_url')` and `.get('image_id')`. -/
structure ImageInfo where
  direct_url : Option String := none
  image_id : Option String := none

/-- Python truthiness of an optional string (`None` and `''` are falsy). -/
def pyTruthyStr (o : Option String) : Bool :=
  match o with
  | some s => ¬s.isEmpty
  | none => false

/-- Python `x or y` on optional strings (`None`/`''` falls through). -/
def pyOrStr (o : Option String) (dflt : String) : String :=
  match o with
  | some s => if s.isEmpty then dflt else s
  | none => dflt

/-- Python `x or y` on optional ints (`None` and `0` fall through). -/
def pyOrInt (o : Option Int) (dflt : Option Int) : Option Int :=
  match o with
  | some d => if d = 0 then dflt else some d
  | none => dflt

/-- `s.upper()`. -/
def strUpper (s : String) : String := String.mk (s.data.map Char.toUpper)

/-- `' '.join(l)`. -/
def joinSpace : List String → String
  | [] => ""
  | [s] => s
  | s :: rest => s ++ " " ++ joinSpace rest

/-- `GlanceImageService._validate_temp_url_config`: require a truthy shared
secret, a nonempty method list, and only known HTTP methods. -/
def validate_temp_url_config (cfg : GlanceConf) : Except Exc Unit :=
  if ¬pyTruthyStr cfg.swift_temp_url_key then .error .InvalidParameterValue
  else
    let methods := cfg.swift_temp_url_methods.map strUpper
    if methods.isEmpty then .error .InvalidParameterValue
    else if methods.any (fun m =>
        ¬(["GET", "HEAD", "PUT", "POST", "DELETE"].contains m)) then
      .error .InvalidParameterValue
    else .ok ()

/-- Locate the first `://` in a character list, returning what precedes and
follows it. -/
def splitSchemeAux : List Char → Option (List Char × List Char)
  | [] => none
  | ':' :: '/' :: '/' :: rest => some ([], rest)
  | c :: rest => (splitSchemeAux rest).map (fun pr => (c :: pr.1, pr.2))

/-- Model of `urlparse.urlparse` for the `scheme://netloc/path` URLs the
backend produces: `(scheme, netloc, path)`, the path keeping its leading
slash.  Query strings and fragments are not modelled; the backend direct URLs
carry neither. -/
def pyUrlparse (url : String) : String × String × String :=
  match splitSchemeAux url.data with
  | none => ("", "", url)
  | some (schemeCs, rest) =>
    let netloc := rest.takeWhile (fun c => c ≠ '/')
    let path := rest.drop netloc.length
    (String.mk schemeCs, String.mk netloc, String.mk path)

/-- The last `@`-separated piece of the netloc
(`parsed.netloc.split('@')[-1]`), dropping any userinfo. -/
def netlocHost (netloc : String) : String :=
  String.mk ((splitChars '@' netloc.data).getLastD [])

/-- Modelled from the spec: `ironic/common/utils.is_uuid_like` is not among
the sources; per the spec (§4.6), the object id must be a valid UUID, i.e. the
canonical `8-4-4-4-12` hexadecimal form. -/
def is_uuid_like (s : String) : Bool :=
  match (pySplit s '-').map (fun part => part.data) with
  | [a, b, c, d, e] =>
    a.length = 8 && b.length = 4 && c.length = 4 && d.length = 4 &&
    e.length = 12 && (a ++ b ++ c ++ d ++ e).all (fun ch =>
      ch.isDigit || ('a' ≤ ch && ch ≤ 'f') || ('A' ≤ ch && ch ≤ 'F'))
  | _ => false

/-- The resolved URL fragments `{host, scheme, path, container, object_id}`. -/
structure UrlFragments where
  host : String
  scheme : String
  path : String
  container : String
  object_id : String
deriving DecidableEq, Repr

/-- `GlanceImageService._swift_url_fragments`: parse the backend direct URL,
require its path to split into exactly `['', path, container, object_id]` with
a UUID object id, and let each configured override win. -/
def swift_url_fragments (cfg : GlanceConf) (direct_url : String) :
    Except Exc UrlFragments :=
  let parsed := pyUrlparse direct_url
  let swift_host := netlocHost parsed.2.1
  match pySplit parsed.2.2 '/' with
  | [_empty, path, container, object_id] =>
    if ¬is_uuid_like object_id then .error .ImageUnacceptable
    else .ok { host := pyOrStr cfg.swift_endpoint_url swift_host,
               scheme := pyOrStr cfg.swift_scheme parsed.1,
               path := pyOrStr cfg.swift_path path,
               container := pyOrStr cfg.swift_backend_container container,
               object_id := object_id }
  | _ => .error .ImageUnacceptable

/-- `path.lstrip('/').rstrip('/')`. -/
def stripSlashes (s : String) : String :=
  String.mk (((s.data.dropWhile (fun c => c = '/')).reverse.dropWhile
    (fun c => c = '/')).reverse)

/-- `str(None)` rendering for an optional string interpolated into the URL
template (the source formats the raw `.get('image_id')`). -/
def pyStrOfOpt (o : Option String) : String :=
  match o with
  | some s => s
  | none => "None"

/-- `GlanceImageService.swift_temp_url`: validate the configuration, resolve
the duration (`duration or CONF...; if None: raise`), resolve the URL
fragments (from the direct URL, or from static configuration — whose absence
the source reports by raising `InvalidMAC`), build
`/{path}/{container}/{object_id}`, and sign
`methods + "\n" + str(expires) + "\n" + url_path` with HMAC-SHA1 under the
shared secret.  `int(time.time() + duration)` is `now + duration` for integer
`now`.  The `UnicodeDecodeError` re-raise cannot occur over code points. -/
def swift_temp_url (cfg : GlanceConf) (now : Int) (img : ImageInfo)
    (durationArg : Option Int) : Except Exc String :=
  match validate_temp_url_config cfg with
  | .error e => .error e
  | .ok _ =>
    match pyOrInt durationArg cfg.swift_temp_url_duration with
    | none => .error .InvalidParameterValue
    | some duration =>
      let fragRes : Except Exc UrlFragments :=
        if ¬pyTruthyStr img.direct_url then
          if pyTruthyStr cfg.swift_scheme && pyTruthyStr cfg.swift_endpoint_url
              && pyTruthyStr cfg.swift_path
              && pyTruthyStr cfg.swift_backend_container then
            .ok { host := pyOrStr cfg.swift_endpoint_url "",
                  scheme := pyOrStr cfg.swift_scheme "",
                  path := pyOrStr cfg.swift_path "",
                  container := pyOrStr cfg.swift_backend_container "",
                  object_id := pyStrOfOpt img.image_id }
          else .error .InvalidMAC
        else swift_url_fragments cfg (img.direct_url.getD "")
      match fragRes with
      | .error e => .error e
      | .ok frag =>
        let url_path := "/" ++ stripSlashes frag.path ++ "/" ++ frag.container
          ++ "/" ++ frag.object_id
        let expiration := now + duration
        let methods := joinSpace (cfg.swift_temp_url_methods.map strUpper)
        let hmac_body := methods ++ "\n" ++ intStr expiration ++ "\n" ++ url_path
        let sig := hexdigest (hmac_sha1
          (strBytes (cfg.swift_temp_url_key.getD "")) (strBytes hmac_body))
        .ok (frag.scheme ++ "://" ++ frag.host ++ url_path ++ "?temp_url_sig="
          ++ sig ++ "&temp_url_expires=" ++ intStr expiration)

/-- Modelled from the spec (§4.6, Signed download URL): the specified
signature construction, verbatim —
`methods = upper(join(allowed_methods, " "))`,
`body = methods + "\n" + expires + "\n" + url_path`,
`sig = lowercase_hex(HMAC_SHA1(shared_secret, body))`. -/
def spec_signature (shared_secret : String) (allowed_methods : List String)
    (expires : Int) (url_path : String) : String :=
  let methods := strUpper (joinSpace allowed_methods)
  let body := methods ++ "\n" ++ intStr expires ++ "\n" ++ url_path
  hexdigest (hmac_sha1 (strBytes shared_secret) (strBytes body))

/-! ### Specification-side material for the flatten/unflatten round trip

`segFlatten` restates `flatten_dict` with paths as segment lists instead of
separator-joined strings; `strNormalize` renders int leaves as their decimal
strings, which is what a flatten/unflatten cycle does to them; `goodVal`
delimits the payload shapes on which the round trip can hold at all: dict
keys nonempty, slash-free and not parseable as Python ints, no duplicate keys,
arrays nonempty and containing only nonempty dicts, dicts nonempty. -/

/-- A dictionary key the path encoding can represent faithfully: nonempty,
without the separator, and not parseable as a Python int (an int-like key
would be read back as a list index). -/
def goodKey (k : String) : Bool :=
  ¬k.data.isEmpty && k.data.all (fun c => c ≠ '/') && (pyParseInt k).isNone

mutual
def segFlatten (item : Json) (ps : List String) : List (List String × Json) :=
  match item with
  | .str s => [(ps, .str s)]
  | .int n => [(ps, .str (intStr n))]
  | .obj o => segFlattenEntries o ps
  | .arr l => segFlattenElems l 0 ps

def segFlattenEntries (o : List (String × Json)) (ps : List String) :
    List (List String × Json) :=
  match o with
  | [] => []
  | (k, v) :: rest => segFlatten v (ps ++ [k]) ++ segFlattenEntries rest ps

def segFlattenElems (l : List Json) (i : Nat) (ps : List String) :
    List (List String × Json) :=
  match l with
  | [] => []
  | v :: rest => segFlatten v (ps ++ [natStr i]) ++ segFlattenElems rest (i + 1) ps
end

mutual
def strNormalize : Json → Json
  | .str s => .str s
  | .int n => .str (intStr n)
  | .obj o => .obj (strNormalizeEntries o)
  | .arr l => .arr (strNormalizeElems l)

def strNormalizeEntries : List (String × Json) → List (String × Json)
  | [] => []
  | (k, v) :: rest => (k, strNormalize v) :: strNormalizeEntries rest

def strNormalizeElems : List Json → List Json
  | [] => []
  | v :: rest => strNormalize v :: strNormalizeElems rest
end

mutual
def goodVal : Json → Bool
  | .str _ => true
  | .int _ => true
  | .obj o => ¬o.isEmpty && goodEntries o
  | .arr l => ¬l.isEmpty && goodElems l

def goodEntries : List (String × Json) → Bool
  | [] => true
  | (k, v) :: rest =>
    goodKey k && goodVal v && rest.all (fun kv => kv.1 ≠ k) && goodEntries rest

def goodElems : List Json → Bool
  | [] => true
  | v :: rest => goodElemObj v && goodElems rest

def goodElemObj : Json → Bool
  | .obj o => ¬o.isEmpty && goodEntries o
  | _ => false
end

mutual
def hasIntLeaf : Json → Bool
  | .str _ => false
  | .int _ => true
  | .obj o => entriesHaveIntLeaf o
  | .arr l => elemsHaveIntLeaf l

def entriesHaveIntLeaf : List (String × Json) → Bool
  | [] => false
  | (_, v) :: rest => hasIntLeaf v || entriesHaveIntLeaf rest

def elemsHaveIntLeaf : List Json → Bool
  | [] => false
  | v :: rest => hasIntLeaf v || elemsHaveIntLeaf rest
end

/-- The aggregation entry `validate_driver_interfaces` is expected to produce
for one interface name: `result` stays null with reason `'not supported'` for
an absent interface, is `True` for a passing one, and is `False` with
`str(e)` as reason for one whose `validate` raises. -/
def expectedVRes (d : Driver) (name : String) : VRes :=
  match getIface d name with
  | none => ⟨none, some "not supported"⟩
  | some (.ok _) => ⟨some true, none⟩
  | some (.error e) => ⟨some false, some (excStr e)⟩

/-- Fold a list of segment-keyed entries into a dictionary with
`unflattenStep`: the core of `unflatten_dict` once every flattened key has
been split. -/
def segFold (entries : List (List String × Json))
    (d : List (String × Json)) : List (String × Json) :=
  entries.foldl (fun acc sv => unflattenStep acc sv.1 sv.2) d

/-- The sub-dictionary reached by `sub_item = sub_item.setdefault(key, {})`:
the stored dict when one exists, a fresh empty one otherwise. -/
def objAt (d : List (String × Json)) (k : String) : List (String × Json) :=
  match lookupKV d k with
  | some (.obj o) => o
  | _ => []

/-! ## Theorems -/

/-! ### Shared helper lemmas -/

theorem task_release_of_acquire (node : Node) (host : String)
    (h : node.reservation = none) :
    task_release { node with reservation := some host } = node := by
  cases node
  simp_all [task_release]

/-! ### Claim C1 -/

/-- Claim C1: `do_node_deploy` on a lockable node is rejected with
`InstanceDeployFailure` whenever `provision_state` is not `nostate`, and with
`NodeInMaintenance` when the state is `nostate` but `maintenance` is set; in
either rejection the node row is returned exactly as it was (so
`provision_state`, `target_provision_state` and `last_error` are unchanged and
a null `last_error` stays null), and no worker is spawned. -/
theorem do_node_deploy_rejections (host : String) (node : Node)
    (vo : Except Exc Unit) (pf : Bool) (hres : node.reservation = none) :
    (node.provision_state ≠ .nostate →
      do_node_deploy host node vo pf =
        (.error .InstanceDeployFailure, node, false)) ∧
    (node.provision_state = .nostate → node.maintenance = true →
      do_node_deploy host node vo pf =
        (.error .NodeInMaintenance, node, false)) := by
  constructor
  · intro hstate
    cases node
    simp_all [do_node_deploy, task_acquire, task_release]
  · intro hstate hmaint
    cases node
    simp_all [do_node_deploy, task_acquire, task_release]

/-- Witness for C1 at concrete nodes: an `active` node is rejected with
`InstanceDeployFailure`; a `nostate` node in maintenance with
`NodeInMaintenance`; both rows come back untouched. -/
theorem do_node_deploy_rejections_witness :
    (do_node_deploy "h1" { uuid := "n4", provision_state := .active }
        (.ok ()) true =
      (.error .InstanceDeployFailure,
       { uuid := "n4", provision_state := .active }, false)) ∧
    (do_node_deploy "h1" { uuid := "n5", maintenance := true } (.ok ()) true =
      (.error .NodeInMaintenance, { uuid := "n5", maintenance := true },
       false)) :=
  ⟨(do_node_deploy_rejections "h1" { uuid := "n4", provision_state := .active }
      (.ok ()) true rfl).1 (by decide),
   (do_node_deploy_rejections "h1" { uuid := "n5", maintenance := true }
      (.ok ()) true rfl).2 rfl rfl⟩

/-! ### Claim C3 -/

/-- Claim C3: when the driver raises during the asynchronous deploy worker,
the node is saved with `provision_state = deployfail`, the failure message in
`last_error`, and `target_provision_state` cleared to `nostate`; when the
driver raises during the tear-down worker, the node is saved with
`provision_state = error`, the failure message in `last_error`, and the target
cleared. -/
theorem worker_driver_exception_states (node : Node) (e : String) :
    ((do_node_deploy_worker node (.error e)).provision_state = .deployfail ∧
     (do_node_deploy_worker node (.error e)).last_error =
       some ("Failed to deploy. Error: " ++ e) ∧
     (do_node_deploy_worker node (.error e)).target_provision_state =
       .nostate) ∧
    ((do_node_tear_down_worker node (.error e)).provision_state = .error ∧
     (do_node_tear_down_worker node (.error e)).last_error =
       some ("Failed to tear down. Error: " ++ e) ∧
     (do_node_tear_down_worker node (.error e)).target_provision_state =
       .nostate) := by
  simp [do_node_deploy_worker, do_node_tear_down_worker]

/-! ### Claim C4 (corrected) -/

/-- Counterexample to C4 as stated: on a deployable node with a saturated
worker pool, `do_node_deploy` raises `NoFreeConductorWorker` and leaves the
node in the in-progress state `deploying` with `last_error` still null and no
worker running — not in a terminal or retryable state with `last_error`
populated.  (The source's own test
`test_do_node_deploy_worker_pool_full` asserts the null `last_error`.) -/
theorem do_node_deploy_pool_full_counterexample :
    (do_node_deploy "h1" { uuid := "n1" } (.ok ()) false).1 =
      .error .NoFreeConductorWorker ∧
    (do_node_deploy "h1" { uuid := "n1" } (.ok ()) false).2.1.provision_state =
      .deploying ∧
    (do_node_deploy "h1" { uuid := "n1" } (.ok ()) false).2.1.last_error =
      none ∧
    (do_node_deploy "h1" { uuid := "n1" } (.ok ()) false).2.2 = false := by
  refine ⟨rfl, rfl, rfl, rfl⟩

/-- Claim C4 as amended: when worker submission fails with
`NoFreeConductorWorker` in `do_node_deploy`, the reservation is cleared before
returning, but the node is left in the in-progress state `deploying` with
`target_provision_state = deploydone`, `last_error` null, and no worker
running; the synchronous rejections (C1) leave the node row untouched. -/
theorem do_node_deploy_pool_full (host : String) (node : Node)
    (hres : node.reservation = none) (hstate : node.provision_state = .nostate)
    (hmaint : node.maintenance = false) :
    do_node_deploy host node (.ok ()) false =
      (.error .NoFreeConductorWorker,
       { node with provision_state := .deploying,
                   target_provision_state := .deploydone,
                   last_error := none, reservation := none }, false) := by
  cases node
  simp_all [do_node_deploy, task_acquire, task_release]

/-- Witness for the amended C4 at a concrete node. -/
theorem do_node_deploy_pool_full_witness :
    do_node_deploy "h1" { uuid := "n2" } (.ok ()) false =
      (.error .NoFreeConductorWorker,
       { uuid := "n2", provision_state := .deploying,
         target_provision_state := .deploydone,
         last_error := none, reservation := none }, false) :=
  do_node_deploy_pool_full "h1" { uuid := "n2" } rfl rfl rfl

/-! ### Claim C2 -/

/-- Claim C2: the deploy-timeout sweep leaves everything untouched when
`deploy_callback_timeout` is 0; otherwise, every non-reserved, non-maintenance
node in `deploywait` mapped to this conductor whose `provision_updated_at` is
at most `now - deploy_callback_timeout` is stored back with
`provision_state = deployfail`, `target_provision_state = nostate` and a
timeout message in `last_error`, and (the pool having a free slot) a clean-up
worker is spawned for it. -/
theorem check_deploy_timeouts_spec (env : SweepEnv) (nodes : List Node) :
    (env.deploy_callback_timeout = 0 →
      check_deploy_timeouts env nodes = (nodes, [])) ∧
    (env.deploy_callback_timeout ≠ 0 → env.poolHasFree = true →
      ∀ i (hi : i < nodes.length),
        nodes[i].reservation = none → nodes[i].maintenance = false →
        env.mapped nodes[i].driver nodes[i].uuid = true →
        nodes[i].provision_state = .deploywait →
        nodes[i].provision_updated_at ≤
          env.now - (env.deploy_callback_timeout : Int) →
        ∃ hi2 : i < (check_deploy_timeouts env nodes).1.length,
          ((check_deploy_timeouts env nodes).1.get ⟨i, hi2⟩).provision_state =
            .deployfail ∧
          ((check_deploy_timeouts env nodes).1.get
              ⟨i, hi2⟩).target_provision_state =
            .nostate ∧
          ((check_deploy_timeouts env nodes).1.get ⟨i, hi2⟩).last_error =
            some ("Timeout reached when waiting callback for node "
              ++ nodes[i].uuid) ∧
          nodes[i].uuid ∈ (check_deploy_timeouts env nodes).2) := by
  constructor
  · intro h0
    simp [check_deploy_timeouts, h0]
  · intro h0 hpool i hi hresv hmaint hmap hstate htime
    have hne : ¬env.deploy_callback_timeout = 0 := h0
    have hsweep : sweepOne env nodes[i] =
        ({ nodes[i] with
           provision_state := .deployfail,
           target_provision_state := .nostate,
           last_error := some ("Timeout reached when waiting callback for node "
             ++ nodes[i].uuid) }, some nodes[i].uuid) := by
      simp [sweepOne, hresv, hmaint, hmap, hstate, htime, hpool]
    have hi2 : i < (check_deploy_timeouts env nodes).1.length := by
      simp [check_deploy_timeouts, hne, hi]
    refine ⟨hi2, ?_, ?_, ?_, ?_⟩
    · simp [check_deploy_timeouts, hne, hsweep]
    · simp [check_deploy_timeouts, hne, hsweep]
    · simp [check_deploy_timeouts, hne, hsweep]
    · simp only [check_deploy_timeouts, hne, if_neg hne]
      exact List.mem_filterMap.mpr ⟨nodes[i], by simp [List.getElem_mem],
        by simp [hsweep]⟩

/-- Witness for C2: a singleton table with one timed-out `deploywait` node,
and the same environment with the timeout set to 0. -/
theorem check_deploy_timeouts_witness :
    (check_deploy_timeouts { deploy_callback_timeout := 0, now := 10000 }
      [{ uuid := "n1", provision_state := .deploywait }] =
      ([{ uuid := "n1", provision_state := .deploywait }], [])) ∧
    (∃ hi2 : 0 <
        (check_deploy_timeouts { deploy_callback_timeout := 60, now := 10000 }
          [{ uuid := "n1", provision_state := .deploywait }]).1.length,
      ((check_deploy_timeouts { deploy_callback_timeout := 60, now := 10000 }
          [{ uuid := "n1", provision_state := .deploywait }]).1.get
            ⟨0, hi2⟩).provision_state = .deployfail ∧
      ((check_deploy_timeouts { deploy_callback_timeout := 60, now := 10000 }
          [{ uuid := "n1", provision_state := .deploywait }]).1.get
            ⟨0, hi2⟩).target_provision_state = .nostate ∧
      ((check_deploy_timeouts { deploy_callback_timeout := 60, now := 10000 }
          [{ uuid := "n1", provision_state := .deploywait }]).1.get
            ⟨0, hi2⟩).last_error =
        some ("Timeout reached when waiting callback for node " ++ "n1") ∧
      "n1" ∈ (check_deploy_timeouts { deploy_callback_timeout := 60, now := 10000 }
          [{ uuid := "n1", provision_state := .deploywait }]).2) :=
  ⟨(check_deploy_timeouts_spec { deploy_callback_timeout := 0, now := 10000 }
      [{ uuid := "n1", provision_state := .deploywait }]).1 rfl,
   (check_deploy_timeouts_spec { deploy_callback_timeout := 60, now := 10000 }
      [{ uuid := "n1", provision_state := .deploywait }]).2 (by decide) rfl
      0 (by decide) rfl rfl rfl rfl (by decide)⟩

/-! ### Claim C8 (corrected) -/

theorem validateIfaces_ok (d : Driver) (names : List String)
    (h : ∀ name ∈ names, ∀ e, getIface d name = some (.error e) →
      e = .InvalidParameterValue ∨ e = .UnsupportedDriverExtension) :
    validateIfaces d names =
      .ok (names.map (fun name => (name, expectedVRes d name))) := by
  induction names with
  | nil => rfl
  | cons name rest ih =>
    have hrest : ∀ nm ∈ rest, ∀ e, getIface d nm = some (.error e) →
        e = .InvalidParameterValue ∨ e = .UnsupportedDriverExtension :=
      fun nm hm => h nm (by simp [hm])
    cases hg : getIface d name with
    | none => simp [validateIfaces, hg, ih hrest, expectedVRes]
    | some vout =>
      cases vout with
      | ok _ => simp [validateIfaces, hg, ih hrest, expectedVRes]
      | error e =>
        have he := h name (by simp) e hg
        simp [validateIfaces, hg, ih hrest, expectedVRes, he]

/-- Counterexample to C8 as stated: for a driver whose optional `console`
interface is absent, the returned `console` entry has `result = None` with
reason `'not supported'` — not a boolean. -/
theorem validate_driver_interfaces_counterexample :
    validate_driver_interfaces
      { power := some (.ok ()), deploy := some (.ok ()),
        management := some (.ok ()) } =
      .ok [("power", ⟨some true, none⟩), ("deploy", ⟨some true, none⟩),
           ("console", ⟨none, some "not supported"⟩),
           ("management", ⟨some true, none⟩)] ∧
    (∀ b : Bool, (VRes.mk none (some "not supported")).result ≠ some b) := by
  refine ⟨rfl, ?_⟩
  intro b
  simp

/-- Claim C8 as amended: provided every present interface's `validate` raises
only `InvalidParameterValue` or `UnsupportedDriverExtension` (any other
exception propagates out of the RPC), `validate_driver_interfaces` succeeds
and returns one entry per core and standard interface, in order; a present
interface's entry carries a boolean `result` (`True` on success, `False` with
`str(e)` as reason on failure), while an absent interface's entry carries a
null `result` with reason `'not supported'`. -/
theorem validate_driver_interfaces_spec (d : Driver)
    (h : ∀ name, ∀ e, getIface d name = some (.error e) →
      e = .InvalidParameterValue ∨ e = .UnsupportedDriverExtension) :
    validate_driver_interfaces d =
      .ok ((core_interfaces ++ standard_interfaces).map
        (fun name => (name, expectedVRes d name))) ∧
    (∀ name, (expectedVRes d name).result.isSome ↔ (getIface d name).isSome) ∧
    (∀ name, getIface d name = none →
      expectedVRes d name = ⟨none, some "not supported"⟩) := by
  refine ⟨validateIfaces_ok d _ (fun name _ => h name), ?_, ?_⟩
  · intro name
    cases hg : getIface d name with
    | none => simp [expectedVRes, hg]
    | some vout => cases vout <;> simp [expectedVRes, hg]
  · intro name hg
    simp [expectedVRes, hg]

/-- Witness for the amended C8 at a concrete driver whose `deploy` validation
raises `InvalidParameterValue` and whose `console` is absent. -/
theorem validate_driver_interfaces_spec_witness :
    validate_driver_interfaces
      { power := some (.ok ()), deploy := some (.error .InvalidParameterValue),
        management := some (.ok ()) } =
      .ok ((core_interfaces ++ standard_interfaces).map
        (fun name => (name, expectedVRes
          { power := some (.ok ()),
            deploy := some (.error .InvalidParameterValue),
            management := some (.ok ()) } name))) :=
  (validate_driver_interfaces_spec
    { power := some (.ok ()), deploy := some (.error .InvalidParameterValue),
      management := some (.ok ()) }
    (by intro name e hg
        revert hg
        simp only [getIface]
        split <;> intro hg <;> simp_all)).1

/-! ### Claim C5 -/

theorem find_ports_mem (db : LookupDB) (macs : List String) (p : Port)
    (hp : p ∈ find_ports_by_macs db macs) : p ∈ db.ports := by
  simp only [find_ports_by_macs, List.mem_filterMap] at hp
  obtain ⟨mac, _, hfind⟩ := hp
  revert hfind
  unfold get_port
  cases hf : db.ports.find? (fun q => q.address == mac) with
  | none => simp
  | some q =>
    intro hq
    simp at hq
    subst hq
    exact List.mem_of_find?_eq_some hf

/-- Claim C5: (1) every MAC extracted from an agent lookup payload is in the
normalized lowercase colon form; (2) over a well-formed repository,
`_find_node_by_macs` fails with `NodeNotFound` exactly when no port matches
the given MACs or the matched ports belong to more than one node; (3) when all
matched ports (at least one) belong to a single node, that node's row is
returned. -/
theorem find_node_by_macs_spec :
    (∀ interfaces : List (List (String × Json)),
      ∀ m ∈ get_mac_addresses interfaces, isNormalizedMac m = true) ∧
    (∀ (db : LookupDB) (macs : List String), dbWellFormed db →
      (find_node_by_macs db macs = .error .NodeNotFound ↔
        (find_ports_by_macs db macs = [] ∨
         ((find_ports_by_macs db macs).map Port.node_id).dedup.length > 1))) ∧
    (∀ (db : LookupDB) (macs : List String), dbWellFormed db →
      find_ports_by_macs db macs ≠ [] →
      ((find_ports_by_macs db macs).map Port.node_id).dedup.length ≤ 1 →
      ∃ n, find_node_by_macs db macs = .ok n ∧ n ∈ db.nodes ∧
        ∀ q ∈ find_ports_by_macs db macs, q.node_id = n.id) := by
  refine ⟨?_, ?_, ?_⟩
  · intro interfaces m hm
    simp only [get_mac_addresses, List.mem_filterMap] at hm
    obtain ⟨iface, _, hcase⟩ := hm
    cases hlk : lookupKV iface "mac_address" with
    | none => rw [hlk] at hcase; simp at hcase
    | some v =>
      rw [hlk] at hcase
      cases v with
      | str s =>
        dsimp only at hcase
        cases hv : validate_and_normalize_mac s with
        | error e => rw [hv] at hcase; simp at hcase
        | ok norm =>
          rw [hv] at hcase
          simp at hcase
          subst hcase
          revert hv
          unfold validate_and_normalize_mac
          by_cases hiv : is_valid_mac s = true
          · rw [if_pos hiv]
            intro hv
            cases hv
            exact hiv
          · rw [if_neg hiv]
            intro hv
            cases hv
      | int n => simp at hcase
      | obj o => simp at hcase
      | arr l => simp at hcase
  · intro db macs hwf
    unfold find_node_by_macs
    cases hports : find_ports_by_macs db macs with
    | nil => simp
    | cons p rest =>
      simp only [List.isEmpty_cons]
      rw [if_neg (by simp)]
      unfold get_node_id
      by_cases hdd : (((p :: rest).map Port.node_id).dedup).length > 1
      · rw [if_pos hdd]
        exact iff_of_true rfl (Or.inr hdd)
      · rw [if_neg hdd]
        have hmem : p ∈ db.ports := find_ports_mem db macs p (by simp [hports])
        obtain ⟨n, hn, hid⟩ := hwf p hmem
        have hfound : ∃ q ∈ db.nodes, (fun m => m.id == p.node_id) q = true :=
          ⟨n, hn, by simp [hid]⟩
        rw [← List.find?_isSome] at hfound
        cases hf : db.nodes.find? (fun m => m.id == p.node_id) with
        | none => rw [hf] at hfound; simp at hfound
        | some m =>
          have hnode : node_get_by_id db p.node_id = .ok m := by
            unfold node_get_by_id
            rw [hf]
          show node_get_by_id db p.node_id = .error Exc.NodeNotFound ↔ _
          rw [hnode]
          refine iff_of_false (by simp) ?_
          rintro (h | h)
          · simp at h
          · exact hdd h
  · intro db macs hwf hne hdedup
    unfold find_node_by_macs
    cases hports : find_ports_by_macs db macs with
    | nil => exact absurd hports hne
    | cons p rest =>
      simp only [List.isEmpty_cons]
      rw [if_neg (by simp)]
      unfold get_node_id
      rw [hports] at hdedup
      have hd2 : ¬(((p :: rest).map Port.node_id).dedup).length > 1 := by omega
      rw [if_neg hd2]
      have hmem : p ∈ db.ports := find_ports_mem db macs p (by simp [hports])
      obtain ⟨n, hn, hid⟩ := hwf p hmem
      have hfound : ∃ q ∈ db.nodes, (fun m => m.id == p.node_id) q = true :=
        ⟨n, hn, by simp [hid]⟩
      rw [← List.find?_isSome] at hfound
      cases hf : db.nodes.find? (fun m => m.id == p.node_id) with
      | none => rw [hf] at hfound; simp at hfound
      | some m =>
        have hnode : node_get_by_id db p.node_id = .ok m := by
          unfold node_get_by_id
          rw [hf]
        have hmid : m.id = p.node_id := by
          have := List.find?_some hf
          simpa using this
        have hmmem : m ∈ db.nodes := List.mem_of_find?_eq_some hf
        have hall : ∀ q ∈ p :: rest, q.node_id = p.node_id := by
          intro q hq
          have h1 : q.node_id ∈ ((p :: rest).map Port.node_id).dedup := by
            rw [List.mem_dedup]
            exact List.mem_map_of_mem Port.node_id hq
          have h2 : p.node_id ∈ ((p :: rest).map Port.node_id).dedup := by
            rw [List.mem_dedup]
            exact List.mem_map_of_mem Port.node_id (by simp)
          cases hdd : ((p :: rest).map Port.node_id).dedup with
          | nil => rw [hdd] at h1; simp at h1
          | cons x xs =>
            rw [hdd] at hd2 h1 h2
            simp only [List.length_cons, gt_iff_lt] at hd2
            have hxs : xs = [] := List.eq_nil_of_length_eq_zero (by omega)
            rw [hxs] at h1 h2
            simp at h1 h2
            rw [h1, h2]
        refine ⟨m, ?_, hmmem, ?_⟩
        · show node_get_by_id db p.node_id = .ok m
          exact hnode
        · intro q hq
          rw [hall q hq, hmid]

/-- Witness for C5 at a concrete payload and repository: a v2 interface list
with one well-formed and one malformed MAC, and a repository in which the two
matched ports belong to the single node 7. -/
theorem find_node_by_macs_spec_witness :
    (∀ m ∈ get_mac_addresses
        [[("name", Json.str "eth0"), ("mac_address", Json.str "AA:BB:CC:DD:EE:FF")],
         [("mac_address", Json.str "not-a-mac")]],
      isNormalizedMac m = true) ∧
    (∃ n, find_node_by_macs
        { ports := [⟨"aa:bb:cc:dd:ee:ff", 7, "p1"⟩, ⟨"11:22:33:44:55:66", 7, "p2"⟩],
          nodes := [{ id := 7, uuid := "node-7" }] }
        ["aa:bb:cc:dd:ee:ff", "11:22:33:44:55:66"] = .ok n ∧
      n ∈ [({ id := 7, uuid := "node-7" } : Node)] ∧
      ∀ q ∈ find_ports_by_macs
        { ports := [⟨"aa:bb:cc:dd:ee:ff", 7, "p1"⟩, ⟨"11:22:33:44:55:66", 7, "p2"⟩],
          nodes := [{ id := 7, uuid := "node-7" }] }
        ["aa:bb:cc:dd:ee:ff", "11:22:33:44:55:66"], q.node_id = n.id) :=
  ⟨find_node_by_macs_spec.1
    [[("name", Json.str "eth0"), ("mac_address", Json.str "AA:BB:CC:DD:EE:FF")],
     [("mac_address", Json.str "not-a-mac")]],
   find_node_by_macs_spec.2.2
    { ports := [⟨"aa:bb:cc:dd:ee:ff", 7, "p1"⟩, ⟨"11:22:33:44:55:66", 7, "p2"⟩],
      nodes := [{ id := 7, uuid := "node-7" }] }
    ["aa:bb:cc:dd:ee:ff", "11:22:33:44:55:66"]
    (by intro p hp
        simp at hp
        rcases hp with h | h <;>
          exact ⟨{ id := 7, uuid := "node-7" }, by simp, by simp [h]⟩)
    (by decide) (by decide)⟩

/-! ### Claim C10 -/

theorem lookupKV_insertKV_ne (d : List (String × Json)) (k k' : String)
    (v : Json) (h : k' ≠ k) : lookupKV (insertKV d k v) k' = lookupKV d k' := by
  induction d with
  | nil =>
    simp only [insertKV, lookupKV]
    rw [if_neg (Ne.symm h)]
  | cons kv rest ih =>
    obtain ⟨k0, v0⟩ := kv
    by_cases hk : k0 = k
    · subst hk
      simp [insertKV, lookupKV, Ne.symm h]
    · simp [insertKV, lookupKV, hk, ih]

/-- Claim C10: a heartbeat received while the node is `deploying` and the
agent's last command is still `RUNNING` only rewrites
`driver_info.agent_last_heartbeat` and `driver_info.agent_url`; every other
`driver_info` key, `provision_state`, `target_provision_state` and
`last_error` are unchanged, and no command is issued to the agent. -/
theorem heartbeat_deploying_frame (node : Node) (url : String) (now : Int)
    (env : HBEnv) (hstate : node.provision_state = .deploying)
    (c : AgentCommand) (hlast : env.commands.getLast? = some c)
    (hrun : c.command_status = "RUNNING") :
    heartbeat node url now env =
      ({ node with
         driver_info := insertKV (insertKV node.driver_info
           "agent_last_heartbeat" (.int now)) "agent_url" (.str url) }, []) ∧
    (∀ k, k ≠ "agent_url" → k ≠ "agent_last_heartbeat" →
      lookupKV (heartbeat node url now env).1.driver_info k =
        lookupKV node.driver_info k) ∧
    (heartbeat node url now env).1.provision_state = node.provision_state ∧
    (heartbeat node url now env).1.target_provision_state =
      node.target_provision_state ∧
    (heartbeat node url now env).1.last_error = node.last_error ∧
    (heartbeat node url now env).2 = [] := by
  have hdone : deploy_is_done env.commands = false := by
    unfold deploy_is_done
    rw [hlast]
    simp [hrun]
  have hmain : heartbeat node url now env =
      ({ node with
         driver_info := insertKV (insertKV node.driver_info
           "agent_last_heartbeat" (.int now)) "agent_url" (.str url) }, []) := by
    unfold heartbeat
    simp [hstate, hdone]
  refine ⟨hmain, ?_, by rw [hmain], by rw [hmain], by rw [hmain], by rw [hmain]⟩
  intro k hk1 hk2
  rw [hmain]
  simp only
  rw [lookupKV_insertKV_ne _ _ _ _ hk1, lookupKV_insertKV_ne _ _ _ _ hk2]

/-- Witness for C10 at a concrete deploying node whose `prepare_image` command
is still `RUNNING`. -/
theorem heartbeat_deploying_frame_witness :
    heartbeat
      { uuid := "n1", provision_state := .deploying,
        driver_info := [("deploy_key", Json.str "k")] }
      "http://10.0.0.5:9999" 1234
      { commands := [⟨"prepare_image", "RUNNING", ""⟩] } =
      ({ uuid := "n1", provision_state := .deploying,
         driver_info := insertKV (insertKV [("deploy_key", Json.str "k")]
           "agent_last_heartbeat" (.int 1234)) "agent_url"
           (.str "http://10.0.0.5:9999") }, []) :=
  (heartbeat_deploying_frame
    { uuid := "n1", provision_state := .deploying,
      driver_info := [("deploy_key", Json.str "k")] }
    "http://10.0.0.5:9999" 1234
    { commands := [⟨"prepare_image", "RUNNING", ""⟩] } rfl
    ⟨"prepare_image", "RUNNING", ""⟩ rfl rfl).1

/-! ### Claim C6 -/

theorem strUpper_append (a b : String) :
    strUpper (a ++ b) = strUpper a ++ strUpper b := by
  apply String.ext
  simp [strUpper, String.data_append]

/-- `' '.join(map(upper, l))` equals the spec's `upper(join(l, " "))`:
uppercasing fixes the space separator. -/
theorem strUpper_joinSpace (l : List String) :
    joinSpace (l.map strUpper) = strUpper (joinSpace l) := by
  induction l with
  | nil => rfl
  | cons s rest ih =>
    cases rest with
    | nil => rfl
    | cons t rest2 =>
      show strUpper s ++ " " ++ joinSpace ((t :: rest2).map strUpper) =
        strUpper (s ++ " " ++ joinSpace (t :: rest2))
      rw [ih, strUpper_append, strUpper_append]
      rfl

/-- Claim C6: `swift_temp_url` fails with `InvalidParameterValue` when the
shared secret is missing (or empty) and when the method list is empty; and
every signed URL it returns is built deterministically from
`(secret, methods, expiration, url_path)` exactly as the spec's formula
prescribes — the embedded signature is the lowercase-hex HMAC-SHA1 of
`upper(join(methods, " ")) + "\n" + str(expires) + "\n" + url_path` under the
shared secret (`spec_signature`), so equal inputs give the same signature
byte for byte. -/
theorem swift_temp_url_spec :
    (∀ (cfg : GlanceConf) (now : Int) (img : ImageInfo) (darg : Option Int),
      pyTruthyStr cfg.swift_temp_url_key = false →
      swift_temp_url cfg now img darg = .error .InvalidParameterValue) ∧
    (∀ (cfg : GlanceConf) (now : Int) (img : ImageInfo) (darg : Option Int),
      cfg.swift_temp_url_methods = [] →
      swift_temp_url cfg now img darg = .error .InvalidParameterValue) ∧
    (∀ (cfg : GlanceConf) (now : Int) (img : ImageInfo) (darg : Option Int)
      (u : String), swift_temp_url cfg now img darg = .ok u →
      ∃ (frag : UrlFragments) (duration : Int),
        pyOrInt darg cfg.swift_temp_url_duration = some duration ∧
        u = frag.scheme ++ "://" ++ frag.host ++
          ("/" ++ stripSlashes frag.path ++ "/" ++ frag.container ++ "/"
            ++ frag.object_id) ++
          "?temp_url_sig=" ++
          spec_signature (cfg.swift_temp_url_key.getD "")
            cfg.swift_temp_url_methods (now + duration)
            ("/" ++ stripSlashes frag.path ++ "/" ++ frag.container ++ "/"
              ++ frag.object_id) ++
          "&temp_url_expires=" ++ intStr (now + duration)) := by
  refine ⟨?_, ?_, ?_⟩
  · intro cfg now img darg hkey
    unfold swift_temp_url validate_temp_url_config
    rw [hkey]
    rfl
  · intro cfg now img darg hmethods
    unfold swift_temp_url validate_temp_url_config
    by_cases hkey : pyTruthyStr cfg.swift_temp_url_key = true
    · rw [hkey, hmethods]
      rfl
    · rw [Bool.not_eq_true] at hkey
      rw [hkey]
      rfl
  · intro cfg now img darg u hok
    unfold swift_temp_url at hok
    cases hval : validate_temp_url_config cfg with
    | error e => rw [hval] at hok; exact absurd hok (by simp)
    | ok _ =>
      rw [hval] at hok
      cases hdur : pyOrInt darg cfg.swift_temp_url_duration with
      | none => rw [hdur] at hok; exact absurd hok (by simp)
      | some duration =>
        rw [hdur] at hok
        dsimp only at hok
        set fragRes : Except Exc UrlFragments :=
          (if ¬pyTruthyStr img.direct_url = true then
            if (pyTruthyStr cfg.swift_scheme &&
                pyTruthyStr cfg.swift_endpoint_url &&
                pyTruthyStr cfg.swift_path &&
                pyTruthyStr cfg.swift_backend_container) = true then
              .ok { host := pyOrStr cfg.swift_endpoint_url "",
                    scheme := pyOrStr cfg.swift_scheme "",
                    path := pyOrStr cfg.swift_path "",
                    container := pyOrStr cfg.swift_backend_container "",
                    object_id := pyStrOfOpt img.image_id }
            else .error .InvalidMAC
          else swift_url_fragments cfg (img.direct_url.getD "")) with hfr
        cases hfrag : fragRes with
        | error e => rw [hfrag] at hok; exact absurd hok (by simp)
        | ok frag =>
          rw [hfrag] at hok
          simp only [Except.ok.injEq] at hok
          refine ⟨frag, duration, rfl, ?_⟩
          rw [← hok]
          unfold spec_signature
          rw [← strUpper_joinSpace]

/-- Witness for C6: a missing secret and an empty method list both yield
`InvalidParameterValue`; and for a concrete static configuration the returned
URL is the fully evaluated signed URL with the `spec_signature` shape.  The
literal signature was computed independently with Python's
`hmac`/`hashlib`. -/
theorem swift_temp_url_spec_witness :
    (swift_temp_url { swift_temp_url_key := none } 0 {} none =
      .error .InvalidParameterValue) ∧
    (swift_temp_url
        { swift_temp_url_key := some "correcthorse",
          swift_temp_url_methods := [] } 0 {} none =
      .error .InvalidParameterValue) ∧
    (∃ (frag : UrlFragments) (duration : Int),
      pyOrInt none (some (3600 : Int)) = some duration ∧
      ("http://h/v1/t/c/11111111-2222-3333-4444-555555555555?temp_url_sig=cd8c4214f0d3cd099d5a86ebf1d688c4011e19de&temp_url_expires=3605" : String) =
        frag.scheme ++ "://" ++ frag.host ++
          ("/" ++ stripSlashes frag.path ++ "/" ++ frag.container ++ "/"
            ++ frag.object_id) ++
          "?temp_url_sig=" ++
          spec_signature "correcthorse" ["GET"] ((5 : Int) + duration)
            ("/" ++ stripSlashes frag.path ++ "/" ++ frag.container ++ "/"
              ++ frag.object_id) ++
          "&temp_url_expires=" ++ intStr ((5 : Int) + duration)) :=
  ⟨swift_temp_url_spec.1 { swift_temp_url_key := none } 0 {} none rfl,
   swift_temp_url_spec.2.1
     { swift_temp_url_key := some "correcthorse",
       swift_temp_url_methods := [] } 0 {} none rfl,
   swift_temp_url_spec.2.2
     { swift_temp_url_key := some "correcthorse",
       swift_temp_url_methods := ["GET"],
       swift_temp_url_duration := some 3600,
       swift_scheme := some "http", swift_endpoint_url := some "h",
       swift_path := some "v1/t", swift_backend_container := some "c" }
     5 { image_id := some "11111111-2222-3333-4444-555555555555" } none
     "http://h/v1/t/c/11111111-2222-3333-4444-555555555555?temp_url_sig=cd8c4214f0d3cd099d5a86ebf1d688c4011e19de&temp_url_expires=3605"
     rfl⟩

/-! ### Claims C7 and C9: decimal rendering and parsing -/

theorem digitsVal_append (a : List Char) (c : Char) :
    digitsVal (a ++ [c]) = 10 * digitsVal a + (c.toNat - 48) := by
  simp [digitsVal, List.foldl_append]

theorem digitChar_isDigit (d : Nat) (h : d < 10) :
    (Char.ofNat (48 + d)).isDigit = true := by
  interval_cases d <;> decide

theorem digitChar_toNat (d : Nat) (h : d < 10) :
    (Char.ofNat (48 + d)).toNat = 48 + d := by
  interval_cases d <;> decide

theorem natCharsAux_digits (fuel : Nat) :
    ∀ n, ∀ c ∈ natCharsAux fuel n, c.isDigit = true := by
  induction fuel with
  | zero => intro n c hc; simp [natCharsAux] at hc
  | succ fuel ih =>
    intro n c hc
    unfold natCharsAux at hc
    by_cases h0 : n = 0
    · simp [h0] at hc
    · rw [if_neg h0] at hc
      rcases List.mem_append.mp hc with h | h
      · exact ih _ c h
      · simp at h
        subst h
        exact digitChar_isDigit _ (Nat.mod_lt _ (by norm_num))

theorem digitsVal_natCharsAux (fuel : Nat) :
    ∀ n, n ≤ fuel → digitsVal (natCharsAux fuel n) = n := by
  induction fuel with
  | zero =>
    intro n hn
    interval_cases n
    simp [natCharsAux, digitsVal]
  | succ fuel ih =>
    intro n hn
    unfold natCharsAux
    by_cases h0 : n = 0
    · simp [h0, digitsVal]
    · rw [if_neg h0, digitsVal_append]
      have hdiv : n / 10 ≤ fuel := by
        have h1 : n / 10 < n := Nat.div_lt_self (Nat.pos_of_ne_zero h0) (by norm_num)
        omega
      rw [ih _ hdiv, digitChar_toNat _ (Nat.mod_lt _ (by norm_num))]
      omega

theorem natStr_data_digits (n : Nat) :
    ∀ c ∈ (natStr n).data, c.isDigit = true := by
  intro c hc
  unfold natStr at hc
  by_cases h0 : n = 0
  · simp [h0] at hc
    subst hc
    decide
  · rw [if_neg h0] at hc
    exact natCharsAux_digits _ _ c hc

theorem natStr_data_ne_nil (n : Nat) : (natStr n).data ≠ [] := by
  unfold natStr
  by_cases h0 : n = 0
  · simp [h0]
  · rw [if_neg h0]
    show natCharsAux (n + 1) n ≠ []
    unfold natCharsAux
    rw [if_neg h0]
    simp

theorem digit_not_ws (c : Char) (h : c.isDigit = true) :
    c.isWhitespace = false := by
  by_contra hw
  rw [Bool.not_eq_false] at hw
  simp only [Char.isWhitespace, Bool.or_eq_true, decide_eq_true_eq] at hw
  rcases hw with ((h1 | h1) | h1) | h1 <;> (rw [h1] at h; exact absurd h (by decide))

theorem digit_ne (c : Char) (x : Char) (h : c.isDigit = true)
    (hx : x.isDigit = false) : c ≠ x := by
  intro he
  subst he
  rw [h] at hx
  exact absurd hx (by simp)

theorem dropWhile_ws_digits (l : List Char) (h : ∀ c ∈ l, c.isDigit = true) :
    l.dropWhile Char.isWhitespace = l := by
  cases l with
  | nil => rfl
  | cons c rest =>
    rw [List.dropWhile_cons, if_neg]
    rw [digit_not_ws c (h c (by simp))]
    simp

theorem pyStrip_digits (l : List Char) (h : ∀ c ∈ l, c.isDigit = true) :
    pyStrip l = l := by
  unfold pyStrip
  rw [dropWhile_ws_digits l h, dropWhile_ws_digits, List.reverse_reverse]
  intro c hc
  exact h c (List.mem_reverse.mp hc)

/-- Python `int()` inverts the decimal rendering of a natural number, the key
to reading `str(index)` back as a list index in `unflatten_dict`. -/
theorem pyParseInt_natStr (n : Nat) : pyParseInt (natStr n) = some (n : Int) := by
  unfold pyParseInt
  rw [pyStrip_digits _ (natStr_data_digits n)]
  have hdig := natStr_data_digits n
  cases hd : (natStr n).data with
  | nil => exact absurd hd (natStr_data_ne_nil n)
  | cons c rest =>
    have hc : c.isDigit = true := by
      apply hdig
      rw [hd]
      simp
    dsimp only
    rw [if_neg (digit_ne c '-' hc (by decide)), if_neg (digit_ne c '+' hc (by decide))]
    have hall : (c :: rest).all Char.isDigit = true := by
      rw [List.all_eq_true]
      intro x hx
      apply hdig
      rw [hd]
      exact hx
    unfold pyParseDigits
    rw [if_neg (by simp), if_pos hall]
    have hval : digitsVal (c :: rest) = n := by
      rw [← hd]
      show digitsVal (natStr n).data = n
      unfold natStr
      by_cases h0 : n = 0
      · simp [h0]
        decide
      · rw [if_neg h0]
        exact digitsVal_natCharsAux (n + 1) n (by omega)
    rw [hval]
    rfl

theorem natStr_no_sep (n : Nat) : ∀ c ∈ (natStr n).data, c ≠ '/' := by
  intro c hc
  exact digit_ne c '/' (natStr_data_digits n c hc) (by decide)

/-! ### Claims C7 and C9: split lemmas -/

theorem splitChars_cons (sep c : Char) (rest : List Char) :
    splitChars sep (c :: rest) =
      match splitChars sep rest with
      | [] => []
      | s :: ss => if c = sep then [] :: s :: ss else (c :: s) :: ss := rfl

theorem splitChars_ne_nil (sep : Char) (l : List Char) :
    splitChars sep l ≠ [] := by
  induction l with
  | nil => simp [splitChars]
  | cons c rest ih =>
    rw [splitChars_cons]
    cases h : splitChars sep rest with
    | nil => exact absurd h ih
    | cons s ss => by_cases hc : c = sep <;> simp [hc]

theorem splitChars_append_sep (sep : Char) (a b : List Char) :
    splitChars sep (a ++ sep :: b) = splitChars sep a ++ splitChars sep b := by
  induction a with
  | nil =>
    show splitChars sep (sep :: b) = [[]] ++ splitChars sep b
    rw [splitChars_cons]
    cases h : splitChars sep b with
    | nil => exact absurd h (splitChars_ne_nil sep b)
    | cons s ss => simp
  | cons c rest ih =>
    show splitChars sep (c :: (rest ++ sep :: b)) = splitChars sep (c :: rest) ++ _
    rw [splitChars_cons, splitChars_cons, ih]
    cases h : splitChars sep rest with
    | nil => exact absurd h (splitChars_ne_nil sep rest)
    | cons s ss =>
      by_cases hc : c = sep <;> simp [hc]

theorem splitChars_no_sep (sep : Char) (l : List Char)
    (h : ∀ c ∈ l, c ≠ sep) : splitChars sep l = [l] := by
  induction l with
  | nil => rfl
  | cons c rest ih =>
    rw [splitChars_cons, ih (fun x hx => h x (by simp [hx]))]
    show (if c = sep then [] :: [rest] else (c :: rest) :: []) = [c :: rest]
    rw [if_neg (h c (by simp))]

theorem string_mk_data (s : String) : String.mk s.data = s := rfl

theorem pySplit_append_key (p k : String) (hk : ∀ c ∈ k.data, c ≠ '/') :
    pySplit (p ++ "/" ++ k) '/' = pySplit p '/' ++ [k] := by
  unfold pySplit
  have hdata : (p ++ "/" ++ k).data = p.data ++ '/' :: k.data := by
    simp [String.data_append]
  rw [hdata, splitChars_append_sep, splitChars_no_sep '/' k.data hk]
  simp [string_mk_data]

theorem pySplit_single (k : String) (hk : ∀ c ∈ k.data, c ≠ '/') :
    pySplit k '/' = [k] := by
  unfold pySplit
  rw [splitChars_no_sep '/' k.data hk]
  simp [string_mk_data]

/-! ### Claims C7 and C9: dictionary and padding lemmas -/

theorem lookupKV_insertKV_self (d : List (String × Json)) (k : String)
    (v : Json) : lookupKV (insertKV d k v) k = some v := by
  induction d with
  | nil => simp [insertKV, lookupKV]
  | cons kv rest ih =>
    obtain ⟨k0, v0⟩ := kv
    by_cases hk : k0 = k
    · subst hk
      simp [insertKV, lookupKV]
    · simp [insertKV, lookupKV, hk, ih]

theorem insertKV_insertKV_same (d : List (String × Json)) (k : String)
    (a b : Json) : insertKV (insertKV d k a) k b = insertKV d k b := by
  induction d with
  | nil => simp [insertKV]
  | cons kv rest ih =>
    obtain ⟨k0, v0⟩ := kv
    by_cases hk : k0 = k
    · subst hk
      simp [insertKV]
    · simp [insertKV, hk, ih]

theorem insertKV_fresh (d : List (String × Json)) (k : String) (v : Json)
    (h : lookupKV d k = none) : insertKV d k v = d ++ [(k, v)] := by
  induction d with
  | nil => simp [insertKV]
  | cons kv rest ih =>
    obtain ⟨k0, v0⟩ := kv
    by_cases hk : k0 = k
    · rw [lookupKV, if_pos hk] at h
      exact absurd h (by simp)
    · rw [lookupKV, if_neg hk] at h
      simp [insertKV, hk, ih h]

theorem insertKV_self_eq (d : List (String × Json)) (k : String) (v : Json)
    (h : lookupKV d k = some v) : insertKV d k v = d := by
  induction d with
  | nil => simp [lookupKV] at h
  | cons kv rest ih =>
    obtain ⟨k0, v0⟩ := kv
    by_cases hk : k0 = k
    · rw [lookupKV, if_pos hk] at h
      simp at h
      subst h
      simp [insertKV, hk]
    · rw [lookupKV, if_neg hk] at h
      simp [insertKV, hk, ih h]

theorem lookupKV_append (s t : List (String × Json)) (k : String) :
    lookupKV (s ++ t) k =
      match lookupKV s k with
      | some v => some v
      | none => lookupKV t k := by
  induction s with
  | nil => simp [lookupKV]
  | cons kv rest ih =>
    obtain ⟨k0, v0⟩ := kv
    by_cases hk : k0 = k
    · simp [lookupKV, hk]
    · simp [lookupKV, hk, ih]

theorem padObjs_of_len_ge (a : List Json) (n : Nat) (h : n ≤ a.length) :
    padObjs a n = a := by
  unfold padObjs
  rw [Nat.sub_eq_zero_of_le h]
  simp

theorem padObjs_succ_of_len (a : List Json) (i : Nat) (h : a.length = i) :
    padObjs a (i + 1) = a ++ [Json.obj []] := by
  subst h
  unfold padObjs
  rw [(by omega : a.length + 1 - a.length = 1)]
  simp

theorem getD_append_len (A : List Json) (x dflt : Json) :
    (A ++ [x]).getD A.length dflt = x := by
  induction A with
  | nil => rfl
  | cons y rest ih => simp [ih]

theorem set_append_len (A : List Json) (x y : Json) :
    (A ++ [x]).set A.length y = A ++ [y] := by
  induction A with
  | nil => rfl
  | cons z rest ih => simp [ih]

/-! ### Claims C7 and C9: one-level walk lemmas for `unflattenStep` -/

/-- Descending through a dict key: with a non-numeric key, a non-numeric next
key, and either no stored value or a stored dict, one walk step rewrites the
sub-dictionary in place. -/
theorem unflattenStep_dict (d : List (String × Json)) (k : String)
    (qs : List String) (v : Json) (hk : pyParseInt k = none)
    (hqs : qs ≠ []) (hq : pyParseInt (qs.headD "") = none)
    (hd : lookupKV d k = none ∨ ∃ o, lookupKV d k = some (.obj o)) :
    unflattenStep d (k :: qs) v =
      insertKV d k (.obj (unflattenStep (objAt d k) qs v)) := by
  cases qs with
  | nil => exact absurd rfl hqs
  | cons q rest =>
    simp only [List.headD_cons] at hq
    rcases hd with hnone | ⟨o, hobj⟩
    · simp only [unflattenStep, hk, hq, hnone, objAt]
    · simp only [unflattenStep, hk, hq, hobj, objAt]

/-- Descending through a list index: with a non-numeric key, a decimal index,
a non-numeric key after the index, and either no stored value or a stored
list `A`, one walk step pads the list to length `i+1` and rewrites its `i`-th
element (a dict `eo`) in place. -/
theorem unflattenStep_arr (d : List (String × Json)) (k iStr : String)
    (qs : List String) (v : Json) (i : Nat) (A : List Json)
    (eo : List (String × Json))
    (hk : pyParseInt k = none)
    (hi : pyParseInt iStr = some ((i : Nat) : Int))
    (hqs : qs ≠ []) (hq : pyParseInt (qs.headD "") = none)
    (hA : (lookupKV d k = none ∧ A = []) ∨ lookupKV d k = some (.arr A))
    (helem : (padObjs A (i + 1)).getD i (Json.obj []) = .obj eo) :
    unflattenStep d (k :: iStr :: qs) v =
      insertKV d k (.arr ((padObjs A (i + 1)).set i
        (.obj (unflattenStep eo qs v)))) := by
  cases qs with
  | nil => exact absurd rfl hqs
  | cons q rest =>
    simp only [List.headD_cons] at hq
    have hnonneg : ¬((i : Nat) : Int) < 0 := by omega
    have htoNat : ((i : Nat) : Int).toNat = i := rfl
    rcases hA with ⟨hnone, hAnil⟩ | harr
    · subst hAnil
      simp only [unflattenStep, hk, hi, if_neg hnonneg, hnone, htoNat, hq,
        helem]
    · simp only [unflattenStep, hk, hi, if_neg hnonneg, harr, htoNat, hq,
        helem]

/-! ### Claims C7 and C9: folding blocks of flattened entries -/

theorem segFold_nil (d : List (String × Json)) : segFold [] d = d := rfl

theorem segFold_cons (e : List String × Json)
    (E : List (List String × Json)) (d : List (String × Json)) :
    segFold (e :: E) d = segFold E (unflattenStep d e.1 e.2) := rfl

theorem segFold_append (E1 E2 : List (List String × Json))
    (d : List (String × Json)) :
    segFold (E1 ++ E2) d = segFold E2 (segFold E1 d) := by
  simp [segFold, List.foldl_append]

/-- Folding a nonempty block of entries whose paths all start with the same
non-numeric dict key `k` builds the whole sub-dictionary in place under
`k`. -/
theorem segFold_prepend_key (E : List (List String × Json)) (e0 : List String × Json)
    (d : List (String × Json)) (k : String)
    (hk : pyParseInt k = none)
    (hE : ∀ sv ∈ e0 :: E, sv.1 ≠ [] ∧ pyParseInt (sv.1.headD "") = none)
    (hd : lookupKV d k = none ∨ ∃ o, lookupKV d k = some (.obj o)) :
    segFold ((e0 :: E).map (fun sv => (k :: sv.1, sv.2))) d =
      insertKV d k (.obj (segFold (e0 :: E) (objAt d k))) := by
  induction E generalizing e0 d with
  | nil =>
    obtain ⟨qs, w⟩ := e0
    have h0 := hE (qs, w) (by simp)
    simp only [List.map_cons, List.map_nil, segFold_cons, segFold_nil]
    exact unflattenStep_dict d k qs w hk h0.1 h0.2 hd
  | cons e1 E ih =>
    obtain ⟨qs, w⟩ := e0
    have h0 := hE (qs, w) (by simp)
    rw [List.map_cons, segFold_cons, segFold_cons]
    simp only
    rw [unflattenStep_dict d k qs w hk h0.1 h0.2 hd]
    rw [ih e1 _ (fun sv hm => hE sv (by simp at hm ⊢; tauto)) (Or.inr ⟨_, lookupKV_insertKV_self d k _⟩)]
    rw [insertKV_insertKV_same]
    congr 2
    simp [objAt, lookupKV_insertKV_self]

/-- Folding a block of entries whose paths all start with `k` followed by the
decimal index `i`, when the `i`-th list element (a dict `s`) is already
materialized, rebuilds that element in place. -/
theorem segFold_prepend_idx (E : List (List String × Json))
    (d : List (String × Json)) (k iStr : String) (i : Nat) (A : List Json)
    (s : List (String × Json))
    (hk : pyParseInt k = none)
    (hi : pyParseInt iStr = some ((i : Nat) : Int))
    (hE : ∀ sv ∈ E, sv.1 ≠ [] ∧ pyParseInt (sv.1.headD "") = none)
    (hlook : lookupKV d k = some (.arr (A ++ [.obj s])))
    (hlen : A.length = i) :
    segFold (E.map (fun sv => (k :: iStr :: sv.1, sv.2))) d =
      insertKV d k (.arr (A ++ [.obj (segFold E s)])) := by
  subst hlen
  induction E generalizing d s with
  | nil =>
    simp only [List.map_nil, segFold_nil]
    exact (insertKV_self_eq d k _ hlook).symm
  | cons e E ih =>
    obtain ⟨qs, w⟩ := e
    rw [List.map_cons, segFold_cons]
    simp only
    have h0 := hE (qs, w) (by simp)
    have hpad : padObjs (A ++ [Json.obj s]) (A.length + 1) = A ++ [Json.obj s] :=
      padObjs_of_len_ge _ _ (by simp)
    have hget : (padObjs (A ++ [Json.obj s]) (A.length + 1)).getD A.length
        (Json.obj []) = .obj s := by
      rw [hpad]
      exact getD_append_len A _ _
    rw [unflattenStep_arr d k iStr qs w A.length (A ++ [Json.obj s]) s hk hi
      h0.1 h0.2 (Or.inr hlook) hget]
    rw [hpad, set_append_len]
    rw [ih (insertKV d k (Json.arr (A ++ [Json.obj (unflattenStep s qs w)])))
      (unflattenStep s qs w)
      (fun sv hm => hE sv (List.mem_cons_of_mem _ hm))
      (by rw [lookupKV_insertKV_self])]
    rw [insertKV_insertKV_same]
    rfl

/-- Folding a nonempty block of entries whose paths all start with `k`
followed by the decimal index `i`, starting from a list of length `i` (or no
list at all when `i = 0`), materializes element `i` as a fresh dict and
rebuilds it. -/
theorem segFold_prepend_idx_fresh (E : List (List String × Json))
    (e0 : List String × Json) (d : List (String × Json)) (k iStr : String)
    (i : Nat) (A : List Json)
    (hk : pyParseInt k = none)
    (hi : pyParseInt iStr = some ((i : Nat) : Int))
    (hE : ∀ sv ∈ e0 :: E, sv.1 ≠ [] ∧ pyParseInt (sv.1.headD "") = none)
    (hA : (lookupKV d k = none ∧ A = []) ∨ lookupKV d k = some (.arr A))
    (hlen : A.length = i) :
    segFold ((e0 :: E).map (fun sv => (k :: iStr :: sv.1, sv.2))) d =
      insertKV d k (.arr (A ++ [.obj (segFold (e0 :: E) [])])) := by
  subst hlen
  obtain ⟨qs, w⟩ := e0
  rw [List.map_cons, segFold_cons]
  simp only
  have h0 := hE (qs, w) (by simp)
  have hpad : padObjs A (A.length + 1) = A ++ [Json.obj []] :=
    padObjs_succ_of_len A _ rfl
  have hget : (padObjs A (A.length + 1)).getD A.length (Json.obj []) =
      .obj [] := by
    rw [hpad]
    exact getD_append_len A _ _
  rw [unflattenStep_arr d k iStr qs w A.length A [] hk hi h0.1 h0.2 hA hget]
  rw [hpad, set_append_len]
  rw [segFold_prepend_idx E
    (insertKV d k (Json.arr (A ++ [Json.obj (unflattenStep [] qs w)])))
    k iStr A.length A (unflattenStep [] qs w) hk hi
    (fun sv hm => hE sv (List.mem_cons_of_mem _ hm))
    (by rw [lookupKV_insertKV_self]) rfl]
  rw [insertKV_insertKV_same]
  rfl

/-! ### Claims C7 and C9: induction over JSON values -/

theorem Json.induct {motive : Json → Prop}
    (hstr : ∀ s, motive (.str s)) (hint : ∀ n, motive (.int n))
    (hobj : ∀ o, (∀ k v, (k, v) ∈ o → motive v) → motive (.obj o))
    (harr : ∀ l, (∀ v ∈ l, motive v) → motive (.arr l)) :
    ∀ j, motive j := by
  have key : ∀ fuel j, sizeOf j ≤ fuel → motive j := by
    intro fuel
    induction fuel with
    | zero =>
      intro j hj
      cases j <;> simp at hj
    | succ fuel ih =>
      intro j hj
      cases j with
      | str s => exact hstr s
      | int n => exact hint n
      | obj o =>
        refine hobj o (fun k v hm => ih v ?_)
        have h1 : sizeOf (k, v) < sizeOf o := List.sizeOf_lt_of_mem hm
        have h2 : sizeOf v < sizeOf (k, v) := by simp
        simp at hj
        omega
      | arr l =>
        refine harr l (fun v hm => ih v ?_)
        have h1 : sizeOf v < sizeOf l := List.sizeOf_lt_of_mem hm
        simp at hj
        omega
  intro j
  exact key (sizeOf j) j le_rfl

/-! ### Claims C7 and C9: path-shift and shape lemmas for `segFlatten` -/

theorem segFlattenEntries_shift (o : List (String × Json))
    (ih : ∀ kk v, (kk, v) ∈ o → ∀ (k : String) (ps : List String),
      segFlatten v (k :: ps) =
        (segFlatten v ps).map (fun sv => (k :: sv.1, sv.2))) :
    ∀ (k : String) (ps : List String), segFlattenEntries o (k :: ps) =
      (segFlattenEntries o ps).map (fun sv => (k :: sv.1, sv.2)) := by
  induction o with
  | nil => intro k ps; rfl
  | cons e rest iho =>
    obtain ⟨k1, v1⟩ := e
    intro k ps
    show segFlatten v1 ((k :: ps) ++ [k1]) ++ segFlattenEntries rest (k :: ps)
      = _
    have h1 : (k :: ps) ++ [k1] = k :: (ps ++ [k1]) := rfl
    rw [h1, ih k1 v1 (by simp),
      iho (fun kk v hm => ih kk v (List.mem_cons_of_mem _ hm))]
    show _ = (segFlatten v1 (ps ++ [k1]) ++ segFlattenEntries rest ps).map _
    rw [List.map_append]

theorem segFlattenElems_shift (l : List Json)
    (ih : ∀ v ∈ l, ∀ (k : String) (ps : List String),
      segFlatten v (k :: ps) =
        (segFlatten v ps).map (fun sv => (k :: sv.1, sv.2))) :
    ∀ (i : Nat) (k : String) (ps : List String), segFlattenElems l i (k :: ps) =
      (segFlattenElems l i ps).map (fun sv => (k :: sv.1, sv.2)) := by
  induction l with
  | nil => intro i k ps; rfl
  | cons v rest iho =>
    intro i k ps
    show segFlatten v ((k :: ps) ++ [natStr i]) ++
      segFlattenElems rest (i + 1) (k :: ps) = _
    have h1 : (k :: ps) ++ [natStr i] = k :: (ps ++ [natStr i]) := rfl
    rw [h1, ih v (by simp),
      iho (fun w hm => ih w (List.mem_cons_of_mem _ hm))]
    show _ = (segFlatten v (ps ++ [natStr i]) ++
      segFlattenElems rest (i + 1) ps).map _
    rw [List.map_append]

theorem segFlatten_shift (j : Json) : ∀ (k : String) (ps : List String),
    segFlatten j (k :: ps) =
      (segFlatten j ps).map (fun sv => (k :: sv.1, sv.2)) := by
  induction j using Json.induct with
  | hstr s => intro k ps; rfl
  | hint n => intro k ps; rfl
  | hobj o ih => exact segFlattenEntries_shift o ih
  | harr l ih => exact fun k ps => segFlattenElems_shift l ih 0 k ps

theorem mem_segFlatten_head (v : Json) (k : String) (ps : List String) :
    ∀ sv ∈ segFlatten v (k :: ps), ∃ tail, sv.1 = k :: tail := by
  rw [segFlatten_shift]
  intro sv hm
  rw [List.mem_map] at hm
  obtain ⟨sv0, _, heq⟩ := hm
  exact ⟨sv0.1, by rw [← heq]⟩

/-! ### Claims C7 and C9: unpacking the goodness predicates -/

theorem goodKey_parse (k : String) (h : goodKey k = true) :
    pyParseInt k = none := by
  unfold goodKey at h
  simp only [Bool.and_eq_true] at h
  exact Option.isNone_iff_eq_none.mp h.2

theorem goodKey_no_sep (k : String) (h : goodKey k = true) :
    ∀ c ∈ k.data, c ≠ '/' := by
  unfold goodKey at h
  simp only [Bool.and_eq_true, List.all_eq_true] at h
  intro c hc
  have := h.1.2 c hc
  simpa using this

theorem goodVal_obj (o : List (String × Json)) (h : goodVal (.obj o) = true) :
    o ≠ [] ∧ goodEntries o = true := by
  unfold goodVal at h
  simp only [Bool.and_eq_true] at h
  exact ⟨by simpa using h.1, h.2⟩

theorem goodVal_arr (l : List Json) (h : goodVal (.arr l) = true) :
    l ≠ [] ∧ goodElems l = true := by
  unfold goodVal at h
  simp only [Bool.and_eq_true] at h
  exact ⟨by simpa using h.1, h.2⟩

theorem goodEntries_cons (k : String) (v : Json) (rest : List (String × Json))
    (h : goodEntries ((k, v) :: rest) = true) :
    goodKey k = true ∧ goodVal v = true ∧
    (∀ kv ∈ rest, kv.1 ≠ k) ∧ goodEntries rest = true := by
  unfold goodEntries at h
  simp only [Bool.and_eq_true, List.all_eq_true] at h
  refine ⟨h.1.1.1, h.1.1.2, ?_, h.2⟩
  intro kv hm
  have := h.1.2 kv hm
  simpa using this

theorem goodElems_cons (v : Json) (rest : List Json)
    (h : goodElems (v :: rest) = true) :
    goodElemObj v = true ∧ goodElems rest = true := by
  unfold goodElems at h
  simp only [Bool.and_eq_true] at h
  exact h

theorem goodElemObj_cases (v : Json) (h : goodElemObj v = true) :
    ∃ o, v = .obj o ∧ goodVal (.obj o) = true := by
  cases v with
  | obj o => exact ⟨o, rfl, by unfold goodElemObj at h; unfold goodVal; exact h⟩
  | str s => exact absurd h (by simp [goodElemObj])
  | int n => exact absurd h (by simp [goodElemObj])
  | arr l => exact absurd h (by simp [goodElemObj])

/-- Every flattened block of a good value is nonempty: good dicts and lists
are nonempty, so every branch contributes at least one path. -/
theorem segFlatten_ne_nil (j : Json) :
    goodVal j = true → ∀ ps, segFlatten j ps ≠ [] := by
  induction j using Json.induct with
  | hstr s => intro _ ps; simp [segFlatten]
  | hint n => intro _ ps; simp [segFlatten]
  | hobj o ih =>
    intro hg ps
    obtain ⟨hne, hent⟩ := goodVal_obj o hg
    cases o with
    | nil => exact absurd rfl hne
    | cons e rest =>
      obtain ⟨k1, v1⟩ := e
      obtain ⟨_, hv1, _, _⟩ := goodEntries_cons k1 v1 rest hent
      show segFlatten v1 (ps ++ [k1]) ++ segFlattenEntries rest ps ≠ []
      have := ih k1 v1 (by simp) hv1 (ps ++ [k1])
      intro hcontra
      rw [List.append_eq_nil] at hcontra
      exact this hcontra.1
  | harr l ih =>
    intro hg ps
    obtain ⟨hne, helems⟩ := goodVal_arr l hg
    cases l with
    | nil => exact absurd rfl hne
    | cons v rest =>
      obtain ⟨hv, _⟩ := goodElems_cons v rest helems
      obtain ⟨o, rfl, hvo⟩ := goodElemObj_cases v hv
      show segFlatten (.obj o) (ps ++ [natStr 0]) ++
        segFlattenElems rest 1 ps ≠ []
      have := ih (.obj o) (by simp) hvo (ps ++ [natStr 0])
      intro hcontra
      rw [List.append_eq_nil] at hcontra
      exact this hcontra.1

/-- Every path in the block of a good dict's entries (relative to the empty
prefix) is nonempty and starts with a non-numeric key. -/
theorem segFlattenEntries_heads (o : List (String × Json))
    (hg : goodEntries o = true) :
    ∀ sv ∈ segFlattenEntries o [], sv.1 ≠ [] ∧
      pyParseInt (sv.1.headD "") = none := by
  induction o with
  | nil => intro sv hm; simp [segFlattenEntries] at hm
  | cons e rest ih =>
    obtain ⟨k1, v1⟩ := e
    obtain ⟨hk1, _, _, hrest⟩ := goodEntries_cons k1 v1 rest hg
    intro sv hm
    have hm2 : sv ∈ segFlatten v1 ([] ++ [k1]) ++ segFlattenEntries rest [] := hm
    rw [List.mem_append] at hm2
    rcases hm2 with h | h
    · obtain ⟨tail, htail⟩ := mem_segFlatten_head v1 k1 [] sv h
      rw [htail]
      exact ⟨by simp, by simpa using goodKey_parse k1 hk1⟩
    · exact ih hrest sv h

/-! ### Claims C7 and C9: rebuilding a good value from its flattened block -/

theorem goodEntries_mem (o : List (String × Json)) (hg : goodEntries o = true) :
    ∀ kk v, (kk, v) ∈ o → goodKey kk = true ∧ goodVal v = true := by
  induction o with
  | nil => intro kk v hm; simp at hm
  | cons e rest ih =>
    obtain ⟨k1, v1⟩ := e
    obtain ⟨hk1, hv1, _, hrest⟩ := goodEntries_cons k1 v1 rest hg
    intro kk v hm
    rcases List.mem_cons.mp hm with h | h
    · cases h
      exact ⟨hk1, hv1⟩
    · exact ih hrest kk v h

/-- Folding the blocks of a good dict's entries into a dictionary none of
whose keys clash appends the rebuilt entries in order. -/
theorem rebuild_entries (o : List (String × Json))
    (ih : ∀ kk v, (kk, v) ∈ o → ∀ (d : List (String × Json)) (k : String),
      goodKey k = true → lookupKV d k = none →
      segFold (segFlatten v [k]) d = insertKV d k (strNormalize v))
    (hg : goodEntries o = true) :
    ∀ s, (∀ kv ∈ o, lookupKV s kv.1 = none) →
      segFold (segFlattenEntries o []) s = s ++ strNormalizeEntries o := by
  induction o with
  | nil =>
    intro s _
    show segFold [] s = s ++ []
    rw [segFold_nil, List.append_nil]
  | cons e rest iho =>
    obtain ⟨k1, v1⟩ := e
    obtain ⟨hk1, hv1, hnodup, hrest⟩ := goodEntries_cons k1 v1 rest hg
    intro s hfresh
    show segFold (segFlatten v1 ([] ++ [k1]) ++ segFlattenEntries rest []) s = _
    rw [segFold_append]
    rw [show ([] ++ [k1] : List String) = [k1] from rfl]
    rw [ih k1 v1 (by simp) s k1 hk1 (hfresh (k1, v1) (by simp))]
    rw [insertKV_fresh s k1 _ (hfresh (k1, v1) (by simp))]
    rw [iho (fun kk v hm => ih kk v (List.mem_cons_of_mem _ hm)) hrest
      (s ++ [(k1, strNormalize v1)]) ?_]
    · show (s ++ [(k1, strNormalize v1)]) ++ strNormalizeEntries rest =
        s ++ ((k1, strNormalize v1) :: strNormalizeEntries rest)
      rw [List.append_assoc]
      rfl
    · intro kv hm
      rw [lookupKV_append, hfresh kv (List.mem_cons_of_mem _ hm)]
      show lookupKV [(k1, strNormalize v1)] kv.1 = none
      have hne : kv.1 ≠ k1 := hnodup kv hm
      simp [lookupKV, Ne.symm hne]

/-- Folding the element blocks of the tail of a good list, when elements
`0 .. i-1` are already rebuilt in place under `k`, appends the remaining
rebuilt elements. -/
theorem rebuild_arr_aux (rest : List Json)
    (ihent : ∀ v ∈ rest, ∀ o, v = .obj o → goodEntries o = true →
      segFold (segFlattenEntries o []) [] = strNormalizeEntries o) :
    ∀ (i : Nat) (d : List (String × Json)) (k : String) (A : List Json),
      goodKey k = true → goodElems rest = true →
      lookupKV d k = some (.arr A) → A.length = i → A ≠ [] →
      segFold (segFlattenElems rest i [k]) d =
        insertKV d k (.arr (A ++ strNormalizeElems rest)) := by
  induction rest with
  | nil =>
    intro i d k A _ _ hlook _ _
    show segFold [] d = _
    rw [segFold_nil, show strNormalizeElems [] = [] from rfl, List.append_nil]
    exact (insertKV_self_eq d k _ hlook).symm
  | cons v rest2 iho =>
    intro i d k A hk hge hlook hlen hAne
    obtain ⟨hvElem, hrest2⟩ := goodElems_cons v rest2 hge
    obtain ⟨o, rfl, ho⟩ := goodElemObj_cases v hvElem
    show segFold (segFlatten (.obj o) ([k] ++ [natStr i]) ++
      segFlattenElems rest2 (i + 1) [k]) d = _
    rw [segFold_append]
    have hblock : segFlatten (.obj o) ([k] ++ [natStr i]) =
        (segFlattenEntries o []).map
          (fun sv => (k :: natStr i :: sv.1, sv.2)) := by
      show segFlatten (.obj o) (k :: [natStr i]) = _
      rw [segFlatten_shift, segFlatten_shift]
      show ((segFlattenEntries o []).map _).map _ = _
      rw [List.map_map]
      rfl
    cases hE0 : segFlattenEntries o [] with
    | nil =>
      exact absurd (show segFlatten (.obj o) [] = [] from hE0)
        (segFlatten_ne_nil (.obj o) ho [])
    | cons f0 F =>
      rw [hblock, hE0]
      rw [segFold_prepend_idx_fresh F f0 d k (natStr i) i A
        (goodKey_parse k hk) (pyParseInt_natStr i)
        (by rw [← hE0]; exact segFlattenEntries_heads o (goodVal_obj o ho).2)
        (Or.inr hlook) hlen]
      rw [← hE0, ihent (.obj o) (by simp) o rfl (goodVal_obj o ho).2]
      rw [iho (fun w hm => ihent w (List.mem_cons_of_mem _ hm)) (i + 1) _ k
        (A ++ [Json.obj (strNormalizeEntries o)]) hk hrest2
        (lookupKV_insertKV_self d k _) (by simp [hlen]) (by simp)]
      rw [insertKV_insertKV_same]
      show _ = insertKV d k (.arr (A ++
        (strNormalize (.obj o) :: strNormalizeElems rest2)))
      rw [show strNormalize (.obj o) = .obj (strNormalizeEntries o) from rfl,
        List.append_assoc]
      rfl

/-- The central rebuild lemma: folding the flattened block of a good value
`v` rooted at a fresh key `k` stores exactly `strNormalize v` under `k`. -/
theorem rebuild_val : ∀ (fuel : Nat) (v : Json), sizeOf v ≤ fuel →
    goodVal v = true →
    ∀ (d : List (String × Json)) (k : String), goodKey k = true →
      lookupKV d k = none →
      segFold (segFlatten v [k]) d = insertKV d k (strNormalize v) := by
  intro fuel
  induction fuel with
  | zero =>
    intro v hv
    cases v <;> simp at hv
  | succ fuel ih =>
    intro v hsize hgood d k hk hfresh
    cases v with
    | str s =>
      show segFold [([k], Json.str s)] d = insertKV d k (Json.str s)
      rw [segFold_cons, segFold_nil]
      show unflattenStep d [k] (Json.str s) = _
      simp only [unflattenStep, goodKey_parse k hk]
    | int n =>
      show segFold [([k], Json.str (intStr n))] d =
        insertKV d k (Json.str (intStr n))
      rw [segFold_cons, segFold_nil]
      show unflattenStep d [k] (Json.str (intStr n)) = _
      simp only [unflattenStep, goodKey_parse k hk]
    | obj o =>
      obtain ⟨hne, hent⟩ := goodVal_obj o hgood
      have hvalih : ∀ kk w, (kk, w) ∈ o →
          ∀ (d2 : List (String × Json)) (k2 : String), goodKey k2 = true →
          lookupKV d2 k2 = none →
          segFold (segFlatten w [k2]) d2 = insertKV d2 k2 (strNormalize w) := by
        intro kk w hm
        have hsz : sizeOf w ≤ fuel := by
          have h1 : sizeOf (kk, w) < sizeOf o := List.sizeOf_lt_of_mem hm
          have h2 : sizeOf w < sizeOf (kk, w) := by simp
          have h3 : sizeOf (Json.obj o) = 1 + sizeOf o := by simp
          omega
        exact ih w hsz (goodEntries_mem o hent kk w hm).2
      have hshift : segFlatten (.obj o) [k] =
          (segFlattenEntries o []).map (fun sv => (k :: sv.1, sv.2)) :=
        segFlatten_shift (.obj o) k []
      cases hE : segFlattenEntries o [] with
      | nil =>
        exact absurd (show segFlatten (.obj o) [] = [] from hE)
          (segFlatten_ne_nil (.obj o) hgood [])
      | cons e0 E =>
        rw [hshift, hE]
        rw [segFold_prepend_key E e0 d k (goodKey_parse k hk)
          (by rw [← hE]; exact segFlattenEntries_heads o hent)
          (Or.inl hfresh)]
        have hobjAt : objAt d k = [] := by simp [objAt, hfresh]
        rw [hobjAt, ← hE]
        rw [rebuild_entries o hvalih hent [] (by intro kv _; rfl)]
        rfl
    | arr l =>
      obtain ⟨hne, helems⟩ := goodVal_arr l hgood
      have hentih : ∀ w ∈ l, ∀ o2, w = .obj o2 → goodEntries o2 = true →
          segFold (segFlattenEntries o2 []) [] = strNormalizeEntries o2 := by
        intro w hm o2 hw hgo2
        subst hw
        have hvalih2 : ∀ kk w2, (kk, w2) ∈ o2 →
            ∀ (d2 : List (String × Json)) (k2 : String), goodKey k2 = true →
            lookupKV d2 k2 = none → segFold (segFlatten w2 [k2]) d2 =
              insertKV d2 k2 (strNormalize w2) := by
          intro kk w2 hm2
          have hsz : sizeOf w2 ≤ fuel := by
            have h1 : sizeOf (kk, w2) < sizeOf o2 := List.sizeOf_lt_of_mem hm2
            have h2 : sizeOf w2 < sizeOf (kk, w2) := by simp
            have h3 : sizeOf (Json.obj o2) < sizeOf l :=
              List.sizeOf_lt_of_mem hm
            have h4 : sizeOf (Json.obj o2) = 1 + sizeOf o2 := by simp
            have h5 : sizeOf (Json.arr l) = 1 + sizeOf l := by simp
            omega
          exact ih w2 hsz (goodEntries_mem o2 hgo2 kk w2 hm2).2
        have := rebuild_entries o2 hvalih2 hgo2 [] (by intro kv _; rfl)
        rw [this]
        rfl
      cases l with
      | nil => exact absurd rfl hne
      | cons v0 rest =>
        obtain ⟨hv0elem, hrest⟩ := goodElems_cons v0 rest helems
        obtain ⟨o0, rfl, ho0⟩ := goodElemObj_cases v0 hv0elem
        show segFold (segFlatten (.obj o0) ([k] ++ [natStr 0]) ++
          segFlattenElems rest 1 [k]) d = _
        rw [segFold_append]
        have hblock : segFlatten (.obj o0) ([k] ++ [natStr 0]) =
            (segFlattenEntries o0 []).map
              (fun sv => (k :: natStr 0 :: sv.1, sv.2)) := by
          show segFlatten (.obj o0) (k :: [natStr 0]) = _
          rw [segFlatten_shift, segFlatten_shift]
          show ((segFlattenEntries o0 []).map _).map _ = _
          rw [List.map_map]
          rfl
        cases hE0 : segFlattenEntries o0 [] with
        | nil =>
          exact absurd (show segFlatten (.obj o0) [] = [] from hE0)
            (segFlatten_ne_nil (.obj o0) ho0 [])
        | cons f0 F =>
          rw [hblock, hE0]
          rw [segFold_prepend_idx_fresh F f0 d k (natStr 0) 0 []
            (goodKey_parse k hk) (pyParseInt_natStr 0)
            (by rw [← hE0]
                exact segFlattenEntries_heads o0 (goodVal_obj o0 ho0).2)
            (Or.inl ⟨hfresh, rfl⟩) rfl]
          rw [← hE0, hentih (.obj o0) (by simp) o0 rfl (goodVal_obj o0 ho0).2]
          cases rest with
          | nil =>
            show insertKV d k (.arr ([] ++ [.obj (strNormalizeEntries o0)])) =
              insertKV d k (strNormalize (.arr [.obj o0]))
            rfl
          | cons v1 rest2 =>
            rw [rebuild_arr_aux (v1 :: rest2)
              (fun w hm => hentih w (List.mem_cons_of_mem _ hm)) 1 _ k
              ([] ++ [Json.obj (strNormalizeEntries o0)]) hk hrest
              (lookupKV_insertKV_self d k _) (by simp) (by simp)]
            rw [insertKV_insertKV_same]
            rfl

/-! ### Claims C7 and C9: bridging separator-joined paths and segment lists -/

theorem string_ne_empty_of_data (s : String) (h : s.data ≠ []) : s ≠ "" :=
  fun he => h (by rw [he])

theorem append_key_ne_empty (p k : String) : p ++ "/" ++ k ≠ "" := by
  apply string_ne_empty_of_data
  simp [String.data_append]

theorem flattenEntries_bridge (o : List (String × Json))
    (ih : ∀ kk v, (kk, v) ∈ o → goodVal v = true → ∀ p : String, p ≠ "" →
      (flatten_dict v p).map (fun kv => (pySplit kv.1 '/', kv.2)) =
        segFlatten v (pySplit p '/'))
    (hg : goodEntries o = true) (p : String) (hp : p ≠ "") :
    (flattenEntries o (p ++ "/")).map (fun kv => (pySplit kv.1 '/', kv.2)) =
      segFlattenEntries o (pySplit p '/') := by
  induction o with
  | nil => rfl
  | cons e rest iho =>
    obtain ⟨k1, v1⟩ := e
    obtain ⟨hk1, hv1, _, hrest⟩ := goodEntries_cons k1 v1 rest hg
    show (flatten_dict v1 (p ++ "/" ++ k1) ++
      flattenEntries rest (p ++ "/")).map _ = segFlatten v1 (pySplit p '/' ++
        [k1]) ++ segFlattenEntries rest (pySplit p '/')
    rw [List.map_append]
    rw [ih k1 v1 (by simp) hv1 (p ++ "/" ++ k1) (append_key_ne_empty p k1)]
    rw [pySplit_append_key p k1 (goodKey_no_sep k1 hk1)]
    rw [iho (fun kk v hm => ih kk v (List.mem_cons_of_mem _ hm)) hrest]

theorem flattenElems_bridge (l : List Json)
    (ih : ∀ v ∈ l, goodVal v = true → ∀ p : String, p ≠ "" →
      (flatten_dict v p).map (fun kv => (pySplit kv.1 '/', kv.2)) =
        segFlatten v (pySplit p '/'))
    (hg : goodElems l = true) (p : String) (hp : p ≠ "") :
    ∀ i : Nat,
      (flattenElems l i (p ++ "/")).map (fun kv => (pySplit kv.1 '/', kv.2)) =
        segFlattenElems l i (pySplit p '/') := by
  induction l with
  | nil => intro i; rfl
  | cons v rest iho =>
    intro i
    obtain ⟨hvElem, hrest⟩ := goodElems_cons v rest hg
    obtain ⟨o, rfl, ho⟩ := goodElemObj_cases v hvElem
    show (flatten_dict (.obj o) (p ++ "/" ++ natStr i) ++
      flattenElems rest (i + 1) (p ++ "/")).map _ =
      segFlatten (.obj o) (pySplit p '/' ++ [natStr i]) ++
        segFlattenElems rest (i + 1) (pySplit p '/')
    rw [List.map_append]
    rw [ih (.obj o) (by simp) ho (p ++ "/" ++ natStr i)
      (append_key_ne_empty p (natStr i))]
    rw [pySplit_append_key p (natStr i) (natStr_no_sep i)]
    rw [iho (fun w hm => ih w (List.mem_cons_of_mem _ hm)) hrest]

/-- Splitting the paths of `flatten_dict` at the separator recovers the
segment-list flattening, for good values rooted at a nonempty path. -/
theorem flatten_bridge (j : Json) : goodVal j = true → ∀ p : String, p ≠ "" →
    (flatten_dict j p).map (fun kv => (pySplit kv.1 '/', kv.2)) =
      segFlatten j (pySplit p '/') := by
  induction j using Json.induct with
  | hstr s => intro _ p _; rfl
  | hint n => intro _ p _; rfl
  | hobj o ih =>
    intro hg p hp
    obtain ⟨_, hent⟩ := goodVal_obj o hg
    show (flattenEntries o (if p = "" then p else p ++ "/")).map _ = _
    rw [if_neg hp]
    exact flattenEntries_bridge o (fun kk v hm => ih kk v hm) hent p hp
  | harr l ih =>
    intro hg p hp
    obtain ⟨_, helems⟩ := goodVal_arr l hg
    show (flattenElems l 0 (if p = "" then p else p ++ "/")).map _ = _
    rw [if_neg hp]
    exact flattenElems_bridge l (fun v hm => ih v hm) helems p hp 0

theorem empty_append_str (k : String) : "" ++ k = k := by
  apply String.ext
  simp [String.data_append]

/-- The top-level bridge: flattening a good dict at the empty path and
splitting the keys yields the segment-level entry blocks. -/
theorem flatten_bridge_top (o : List (String × Json))
    (hg : goodVal (.obj o) = true) :
    (flatten_dict (.obj o) "").map (fun kv => (pySplit kv.1 '/', kv.2)) =
      segFlattenEntries o [] := by
  have hent := (goodVal_obj o hg).2
  show (flattenEntries o (if ("" : String) = "" then "" else "" ++ "/")).map _ = _
  rw [if_pos rfl]
  clear hg
  induction o with
  | nil => rfl
  | cons e rest iho =>
    obtain ⟨k1, v1⟩ := e
    obtain ⟨hk1, hv1, _, hrest⟩ := goodEntries_cons k1 v1 rest hent
    show (flatten_dict v1 ("" ++ k1) ++ flattenEntries rest "").map _ =
      segFlatten v1 ([] ++ [k1]) ++ segFlattenEntries rest []
    rw [List.map_append, empty_append_str]
    have hk1ne : k1 ≠ "" := by
      apply string_ne_empty_of_data
      unfold goodKey at hk1
      simp only [Bool.and_eq_true] at hk1
      simpa using hk1.1.1
    rw [flatten_bridge v1 hv1 k1 hk1ne,
      pySplit_single k1 (goodKey_no_sep k1 hk1)]
    rw [iho hrest]
    rfl

theorem unflatten_eq_segFold (m : List (String × Json)) :
    unflatten_dict m = segFold (m.map (fun kv => (pySplit kv.1 '/', kv.2))) [] := by
  unfold unflatten_dict segFold
  rw [List.foldl_map]

/-! ### Claims C7 and C9: flattening is blind to `strNormalize` -/

theorem flatten_strNormalize (j : Json) :
    ∀ p, flatten_dict (strNormalize j) p = flatten_dict j p := by
  induction j using Json.induct with
  | hstr s => intro p; rfl
  | hint n => intro p; rfl
  | hobj o ih =>
    intro p
    show flattenEntries (strNormalizeEntries o) _ = flattenEntries o _
    generalize (if p = "" then p else p ++ "/") = q
    induction o with
    | nil => rfl
    | cons e rest iho =>
      obtain ⟨k1, v1⟩ := e
      show flatten_dict (strNormalize v1) (q ++ k1) ++
        flattenEntries (strNormalizeEntries rest) q = _
      rw [ih k1 v1 (by simp), iho (fun kk v hm => ih kk v (List.mem_cons_of_mem _ hm))]
      rfl
  | harr l ih =>
    intro p
    show flattenElems (strNormalizeElems l) 0 _ = flattenElems l 0 _
    generalize (if p = "" then p else p ++ "/") = q
    generalize 0 = i
    induction l generalizing i with
    | nil => rfl
    | cons v rest iho =>
      show flatten_dict (strNormalize v) (q ++ natStr i) ++
        flattenElems (strNormalizeElems rest) (i + 1) q = _
      rw [ih v (by simp), iho (fun w hm => ih w (List.mem_cons_of_mem _ hm))]
      rfl

/-! ### Claim C7 (corrected) -/

/-- Counterexample to C7 as stated: `{'a': ['x']}` is a nested inventory
dictionary, and its flattening `{'a/0': 'x'}` is not a fixed point of
`flatten_dict ∘ unflatten_dict` — the walk for a path that ends in a list
index exits without ever writing the value, leaving `{'a': [{}]}`, which
flattens to `{}`. -/
theorem flatten_unflatten_counterexample :
    flatten_dict (.obj [("a", Json.arr [Json.str "x"])]) "" =
      [("a/0", Json.str "x")] ∧
    flatten_dict (.obj (unflatten_dict
      (flatten_dict (.obj [("a", Json.arr [Json.str "x"])]) ""))) "" = [] ∧
    ([] : List (String × Json)) ≠ [("a/0", Json.str "x")] :=
  ⟨rfl, rfl, by simp⟩

/-- Claim C7 as amended: `flatten_dict (unflatten_dict m) = m` holds for the
maps `m` produced by flattening a *good* inventory dictionary — one whose keys
are nonempty, contain no `/` and do not parse as Python ints, whose dicts are
duplicate-free and nonempty, and whose lists are nonempty and contain only
such dicts (so no flattened path ends in a list index and no two numeric
segments are adjacent).  It fails for other producible maps, e.g. whenever a
list holds scalars (see the counterexample). -/
theorem flatten_unflatten_roundtrip (o : List (String × Json))
    (hg : goodVal (.obj o) = true) :
    flatten_dict (.obj (unflatten_dict (flatten_dict (.obj o) ""))) "" =
      flatten_dict (.obj o) "" := by
  have h1 : unflatten_dict (flatten_dict (.obj o) "") =
      strNormalizeEntries o := by
    rw [unflatten_eq_segFold, flatten_bridge_top o hg]
    rw [rebuild_entries o
      (fun kk v hm => rebuild_val (sizeOf v) v le_rfl
        (goodEntries_mem o (goodVal_obj o hg).2 kk v hm).2)
      (goodVal_obj o hg).2 [] (fun kv _ => rfl)]
    rfl
  rw [h1]
  exact flatten_strNormalize (.obj o) ""

/-- Witness for the amended C7 at the spec's v2 lookup payload shape. -/
theorem flatten_unflatten_roundtrip_witness :
    flatten_dict (.obj (unflatten_dict (flatten_dict (.obj
      [("hardware", Json.obj
        [("network", Json.arr
          [Json.obj [("mac_address", Json.str "aa:bb:cc:dd:ee:ff"),
                     ("name", Json.str "eth0")],
           Json.obj [("mac_address", Json.str "aa:bb:cc:dd:ee:fe"),
                     ("name", Json.str "eth1")]]),
         ("memory", Json.obj [("size", Json.int 1024)])])]) ""))) "" =
    flatten_dict (.obj
      [("hardware", Json.obj
        [("network", Json.arr
          [Json.obj [("mac_address", Json.str "aa:bb:cc:dd:ee:ff"),
                     ("name", Json.str "eth0")],
           Json.obj [("mac_address", Json.str "aa:bb:cc:dd:ee:fe"),
                     ("name", Json.str "eth1")]]),
         ("memory", Json.obj [("size", Json.int 1024)])])]) "" :=
  flatten_unflatten_roundtrip _ (by decide)

/-! ### Claim C9: every flattened value is a string -/

theorem flattenEntries_values (o : List (String × Json))
    (ih : ∀ kk v, (kk, v) ∈ o → ∀ p kv, kv ∈ flatten_dict v p →
      ∃ s, kv.2 = Json.str s) :
    ∀ q kv, kv ∈ flattenEntries o q → ∃ s, kv.2 = Json.str s := by
  induction o with
  | nil => intro q kv hm; simp [flattenEntries] at hm
  | cons e rest iho =>
    obtain ⟨k1, v1⟩ := e
    intro q kv hm
    rcases List.mem_append.mp hm with h | h
    · exact ih k1 v1 (by simp) _ kv h
    · exact iho (fun kk v hmm => ih kk v (List.mem_cons_of_mem _ hmm)) q kv h

theorem flattenElems_values (l : List Json)
    (ih : ∀ v ∈ l, ∀ p kv, kv ∈ flatten_dict v p → ∃ s, kv.2 = Json.str s) :
    ∀ i q kv, kv ∈ flattenElems l i q → ∃ s, kv.2 = Json.str s := by
  induction l with
  | nil => intro i q kv hm; simp [flattenElems] at hm
  | cons v rest iho =>
    intro i q kv hm
    rcases List.mem_append.mp hm with h | h
    · exact ih v (by simp) _ kv h
    · exact iho (fun w hmm => ih w (List.mem_cons_of_mem _ hmm)) (i + 1) q kv h

theorem flatten_values_str (j : Json) :
    ∀ p kv, kv ∈ flatten_dict j p → ∃ s, kv.2 = Json.str s := by
  induction j using Json.induct with
  | hstr s =>
    intro p kv hm
    simp only [flatten_dict, List.mem_singleton] at hm
    exact ⟨s, by rw [hm]⟩
  | hint n =>
    intro p kv hm
    simp only [flatten_dict, List.mem_singleton] at hm
    exact ⟨intStr n, by rw [hm]⟩
  | hobj o ih => exact fun p kv hm => flattenEntries_values o ih _ kv hm
  | harr l ih => exact fun p kv hm => flattenElems_values l ih 0 _ kv hm

/-! ### Claim C9: `unflatten_dict` introduces no int leaves -/

theorem entriesHave_insertKV (d : List (String × Json)) (k : String) (v : Json)
    (h : entriesHaveIntLeaf (insertKV d k v) = true) :
    entriesHaveIntLeaf d = true ∨ hasIntLeaf v = true := by
  induction d with
  | nil =>
    simp only [insertKV, entriesHaveIntLeaf, Bool.or_eq_true] at h
    rcases h with h | h
    · exact Or.inr h
    · simp at h
  | cons kv0 rest ih =>
    obtain ⟨k0, v0⟩ := kv0
    by_cases hk : k0 = k
    · rw [insertKV, if_pos hk] at h
      simp only [entriesHaveIntLeaf, Bool.or_eq_true] at h ⊢
      tauto
    · rw [insertKV, if_neg hk] at h
      simp only [entriesHaveIntLeaf, Bool.or_eq_true] at h ⊢
      rcases h with h | h
      · exact Or.inl (Or.inl h)
      · rcases ih h with h2 | h2
        · exact Or.inl (Or.inr h2)
        · exact Or.inr h2

theorem lookupKV_intleaf (d : List (String × Json)) (k : String) (w : Json)
    (hl : lookupKV d k = some w) (hw : hasIntLeaf w = true) :
    entriesHaveIntLeaf d = true := by
  induction d with
  | nil => simp [lookupKV] at hl
  | cons kv0 rest ih =>
    obtain ⟨k0, v0⟩ := kv0
    by_cases hk : k0 = k
    · rw [lookupKV, if_pos hk] at hl
      simp at hl
      subst hl
      simp only [entriesHaveIntLeaf, Bool.or_eq_true]
      exact Or.inl hw
    · rw [lookupKV, if_neg hk] at hl
      simp only [entriesHaveIntLeaf, Bool.or_eq_true]
      exact Or.inr (ih hl)

theorem elemsHave_append (a b : List Json)
    (h : elemsHaveIntLeaf (a ++ b) = true) :
    elemsHaveIntLeaf a = true ∨ elemsHaveIntLeaf b = true := by
  induction a with
  | nil => exact Or.inr h
  | cons x rest ih =>
    simp only [List.cons_append, elemsHaveIntLeaf, Bool.or_eq_true] at h ⊢
    rcases h with h | h
    · exact Or.inl (Or.inl h)
    · rcases ih h with h2 | h2
      · exact Or.inl (Or.inr h2)
      · exact Or.inr h2

theorem elemsHave_replicate (n : Nat) :
    elemsHaveIntLeaf (List.replicate n (Json.obj [])) = false := by
  induction n with
  | zero => rfl
  | succ n ih => simp [List.replicate, elemsHaveIntLeaf, hasIntLeaf,
      entriesHaveIntLeaf, ih]

theorem elemsHave_padObjs (a : List Json) (n : Nat)
    (h : elemsHaveIntLeaf (padObjs a n) = true) :
    elemsHaveIntLeaf a = true := by
  unfold padObjs at h
  rcases elemsHave_append _ _ h with h2 | h2
  · exact h2
  · rw [elemsHave_replicate] at h2
    exact absurd h2 (by simp)

theorem elemsHave_set (a : List Json) :
    ∀ (i : Nat) (x : Json), elemsHaveIntLeaf (a.set i x) = true →
    elemsHaveIntLeaf a = true ∨ hasIntLeaf x = true := by
  induction a with
  | nil =>
    intro i x h
    simp at h
    exact Or.inl h
  | cons y rest ih =>
    intro i x h
    cases i with
    | zero =>
      rw [List.set_cons_zero] at h
      simp only [elemsHaveIntLeaf, Bool.or_eq_true] at h ⊢
      tauto
    | succ i =>
      rw [List.set_cons_succ] at h
      simp only [elemsHaveIntLeaf, Bool.or_eq_true] at h ⊢
      rcases h with h | h
      · exact Or.inl (Or.inl h)
      · rcases ih i x h with h2 | h2
        · exact Or.inl (Or.inr h2)
        · exact Or.inr h2

theorem getD_intleaf (a : List Json) :
    ∀ (i : Nat) (dflt : Json), hasIntLeaf (a.getD i dflt) = true →
    elemsHaveIntLeaf a = true ∨ hasIntLeaf dflt = true := by
  induction a with
  | nil => intro i dflt h; exact Or.inr (by simpa [List.getD] using h)
  | cons y rest ih =>
    intro i dflt h
    cases i with
    | zero =>
      rw [List.getD_cons_zero] at h
      exact Or.inl (by simp [elemsHaveIntLeaf, h])
    | succ i =>
      rw [List.getD_cons_succ] at h
      rcases ih i dflt h with h2 | h2
      · exact Or.inl (by simp [elemsHaveIntLeaf, h2])
      · exact Or.inr h2

theorem intleaf_arrbody (n : Nat)
    (ihn : ∀ (keys : List String), keys.length ≤ n →
      ∀ (d : List (String × Json)) (v : Json),
      entriesHaveIntLeaf (unflattenStep d keys v) = true →
      entriesHaveIntLeaf d = true ∨ hasIntLeaf v = true)
    (k : String) (rest : List String) (d : List (String × Json)) (v : Json)
    (idx : Nat) (a0 : List Json)
    (ha0 : elemsHaveIntLeaf a0 = true → entriesHaveIntLeaf d = true)
    (h : entriesHaveIntLeaf (
      match rest with
      | [] => insertKV d k (.arr (padObjs a0 (idx + 1)))
      | k3 :: rest2 =>
        match pyParseInt k3 with
        | some _ => insertKV d k (.arr (padObjs a0 (idx + 1)))
        | none =>
          match (padObjs a0 (idx + 1)).getD idx (Json.obj []) with
          | .obj eo => insertKV d k (.arr ((padObjs a0 (idx + 1)).set idx
              (.obj (unflattenStep eo (k3 :: rest2) v))))
          | _ => d) = true)
    (hlen2 : rest.length ≤ n) :
    entriesHaveIntLeaf d = true ∨ hasIntLeaf v = true := by
  have hinsArr : entriesHaveIntLeaf
      (insertKV d k (.arr (padObjs a0 (idx + 1)))) = true →
      entriesHaveIntLeaf d = true := by
    intro h2
    rcases entriesHave_insertKV _ _ _ h2 with h3 | h3
    · exact h3
    · exact ha0 (elemsHave_padObjs _ _ (by simpa [hasIntLeaf] using h3))
  cases rest with
  | nil => exact Or.inl (hinsArr h)
  | cons k3 rest2 =>
    dsimp only at h
    cases hp3 : pyParseInt k3 with
    | some j =>
      rw [hp3] at h
      exact Or.inl (hinsArr h)
    | none =>
      rw [hp3] at h
      cases hget : (padObjs a0 (idx + 1)).getD idx (Json.obj []) with
      | obj eo =>
        rw [hget] at h
        rcases entriesHave_insertKV _ _ _ h with h3 | h3
        · exact Or.inl h3
        · have h4 : elemsHaveIntLeaf ((padObjs a0 (idx + 1)).set idx
              (.obj (unflattenStep eo (k3 :: rest2) v))) = true := by
            simpa [hasIntLeaf] using h3
          rcases elemsHave_set _ idx _ h4 with h5 | h5
          · exact Or.inl (ha0 (elemsHave_padObjs _ _ h5))
          · have h6 : entriesHaveIntLeaf
                (unflattenStep eo (k3 :: rest2) v) = true := by
              simpa [hasIntLeaf] using h5
            rcases ihn (k3 :: rest2) hlen2 eo v h6 with h7 | h7
            · have h8 : hasIntLeaf
                  ((padObjs a0 (idx + 1)).getD idx (Json.obj [])) = true := by
                rw [hget]
                simpa [hasIntLeaf] using h7
              rcases getD_intleaf _ idx _ h8 with h9 | h9
              · exact Or.inl (ha0 (elemsHave_padObjs _ _ h9))
              · exact absurd h9 (by simp [hasIntLeaf, entriesHaveIntLeaf])
            · exact Or.inr h7
      | str s => rw [hget] at h; exact Or.inl h
      | int m => rw [hget] at h; exact Or.inl h
      | arr a => rw [hget] at h; exact Or.inl h

theorem unflattenStep_intleaf_arr (n : Nat)
    (ihn : ∀ (keys : List String), keys.length ≤ n →
      ∀ (d : List (String × Json)) (v : Json),
      entriesHaveIntLeaf (unflattenStep d keys v) = true →
      entriesHaveIntLeaf d = true ∨ hasIntLeaf v = true)
    (k k2 : String) (rest : List String) (d : List (String × Json)) (v : Json)
    (i : Int) (hp : pyParseInt k = none) (hp2 : pyParseInt k2 = some i)
    (hlen : (k :: k2 :: rest).length ≤ n + 1)
    (h : entriesHaveIntLeaf (unflattenStep d (k :: k2 :: rest) v) = true) :
    entriesHaveIntLeaf d = true ∨ hasIntLeaf v = true := by
  have hlen2 : rest.length ≤ n := by simp at hlen; omega
  by_cases hneg : i < 0
  · rw [show unflattenStep d (k :: k2 :: rest) v = d by
      simp only [unflattenStep, hp, hp2, if_pos hneg]] at h
    exact Or.inl h
  · cases hl : lookupKV d k with
    | none =>
      simp only [unflattenStep, hp, hp2, if_neg hneg, hl] at h
      exact intleaf_arrbody n ihn k rest d v i.toNat []
        (fun hfalse => absurd hfalse (by simp [elemsHaveIntLeaf])) h hlen2
    | some w =>
      cases w with
      | arr a =>
        simp only [unflattenStep, hp, hp2, if_neg hneg, hl] at h
        exact intleaf_arrbody n ihn k rest d v i.toNat a
          (fun ha => lookupKV_intleaf d k (.arr a) hl
            (by simpa [hasIntLeaf] using ha)) h hlen2
      | obj o =>
        by_cases ho : o.isEmpty
        · simp only [unflattenStep, hp, hp2, if_neg hneg, hl,
            if_pos ho] at h
          exact intleaf_arrbody n ihn k rest d v i.toNat []
            (fun hfalse => absurd hfalse (by simp [elemsHaveIntLeaf])) h hlen2
        · rw [show unflattenStep d (k :: k2 :: rest) v = d by
            simp only [unflattenStep, hp, hp2, if_neg hneg, hl,
              if_neg ho]] at h
          exact Or.inl h
      | str s =>
        by_cases hs : s.isEmpty
        · simp only [unflattenStep, hp, hp2, if_neg hneg, hl,
            if_pos hs] at h
          exact intleaf_arrbody n ihn k rest d v i.toNat []
            (fun hfalse => absurd hfalse (by simp [elemsHaveIntLeaf])) h hlen2
        · rw [show unflattenStep d (k :: k2 :: rest) v = d by
            simp only [unflattenStep, hp, hp2, if_neg hneg, hl,
              if_neg hs]] at h
          exact Or.inl h
      | int m =>
        exact Or.inl (lookupKV_intleaf d k (.int m) hl rfl)

/-- One `unflatten_dict` walk step introduces an int leaf only if the
dictionary already had one or the inserted value has one. -/
theorem unflattenStep_intleaf :
    ∀ (n : Nat) (keys : List String), keys.length ≤ n →
    ∀ (d : List (String × Json)) (v : Json),
    entriesHaveIntLeaf (unflattenStep d keys v) = true →
    entriesHaveIntLeaf d = true ∨ hasIntLeaf v = true := by
  intro n
  induction n with
  | zero =>
    intro keys hlen d v h
    rw [List.eq_nil_of_length_eq_zero (Nat.le_zero.mp hlen)] at h
    exact Or.inl h
  | succ n ihn =>
    intro keys hlen d v h
    cases keys with
    | nil => exact Or.inl h
    | cons k rest0 =>
      cases rest0 with
      | nil =>
        rw [show unflattenStep d [k] v =
          (match pyParseInt k with
           | some _ => d
           | none => insertKV d k v) from rfl] at h
        cases hp : pyParseInt k with
        | some i => rw [hp] at h; exact Or.inl h
        | none => rw [hp] at h; exact entriesHave_insertKV d k v h
      | cons k2 rest =>
        cases hp : pyParseInt k with
        | some i =>
          rw [show unflattenStep d (k :: k2 :: rest) v = d by
            simp only [unflattenStep, hp]] at h
          exact Or.inl h
        | none =>
          cases hp2 : pyParseInt k2 with
          | none =>
            cases hl : lookupKV d k with
            | none =>
              rw [show unflattenStep d (k :: k2 :: rest) v =
                insertKV d k (.obj (unflattenStep [] (k2 :: rest) v)) by
                  simp only [unflattenStep, hp, hp2, hl]] at h
              rcases entriesHave_insertKV _ _ _ h with h2 | h2
              · exact Or.inl h2
              · rcases ihn (k2 :: rest) (by simpa using hlen) [] v
                  (by simpa [hasIntLeaf] using h2) with h3 | h3
                · exact absurd h3 (by simp [entriesHaveIntLeaf])
                · exact Or.inr h3
            | some w =>
              cases w with
              | obj o =>
                rw [show unflattenStep d (k :: k2 :: rest) v =
                  insertKV d k (.obj (unflattenStep o (k2 :: rest) v)) by
                    simp only [unflattenStep, hp, hp2, hl]] at h
                rcases entriesHave_insertKV _ _ _ h with h2 | h2
                · exact Or.inl h2
                · rcases ihn (k2 :: rest) (by simpa using hlen) o v
                    (by simpa [hasIntLeaf] using h2) with h3 | h3
                  · exact Or.inl (lookupKV_intleaf d k (.obj o) hl
                      (by simpa [hasIntLeaf] using h3))
                  · exact Or.inr h3
              | str s =>
                rw [show unflattenStep d (k :: k2 :: rest) v = d by
                  simp only [unflattenStep, hp, hp2, hl]] at h
                exact Or.inl h
              | int m =>
                rw [show unflattenStep d (k :: k2 :: rest) v = d by
                  simp only [unflattenStep, hp, hp2, hl]] at h
                exact Or.inl h
              | arr a =>
                rw [show unflattenStep d (k :: k2 :: rest) v = d by
                  simp only [unflattenStep, hp, hp2, hl]] at h
                exact Or.inl h
          | some i =>
            exact unflattenStep_intleaf_arr n ihn k k2 rest d v i hp hp2
              hlen h

theorem unflatten_fold_intleaf (flattened : List (String × Json)) (sep : Char)
    (hv : ∀ kv ∈ flattened, ∃ s, kv.2 = Json.str s) :
    ∀ d, entriesHaveIntLeaf d = false →
    entriesHaveIntLeaf (flattened.foldl
      (fun d kv => unflattenStep d (pySplit kv.1 sep) kv.2) d) = false := by
  induction flattened with
  | nil => intro d hd; exact hd
  | cons kv rest ih =>
    intro d hd
    rw [List.foldl_cons]
    have hstep : entriesHaveIntLeaf
        (unflattenStep d (pySplit kv.1 sep) kv.2) = false := by
      cases hb : entriesHaveIntLeaf (unflattenStep d (pySplit kv.1 sep) kv.2)
        with
      | false => rfl
      | true =>
        rcases unflattenStep_intleaf (pySplit kv.1 sep).length _ le_rfl d kv.2
          hb with h1 | h1
        · rw [hd] at h1
          exact absurd h1 (by simp)
        · obtain ⟨s, hs⟩ := hv kv (by simp)
          rw [hs] at h1
          exact absurd h1 (by simp [hasIntLeaf])
    exact ih (fun kv2 hm => hv kv2 (List.mem_cons_of_mem _ hm)) _ hstep

theorem unflatten_intleaf (flattened : List (String × Json))
    (hv : ∀ kv ∈ flattened, ∃ s, kv.2 = Json.str s) :
    entriesHaveIntLeaf (unflatten_dict flattened) = false :=
  unflatten_fold_intleaf flattened '/' hv [] rfl

/-- C9: every value in the association list returned by `flatten_dict` is a
string (integer leaves are converted with `str` before storage), and
consequently `unflatten_dict (flatten_dict m)` differs from `m` whenever `m`
contains a non-string (integer) leaf, since the rebuilt dictionary has no
integer leaf at all. -/
theorem flatten_values_strings :
    (∀ (item : Json) (path : String) (kv : String × Json),
      kv ∈ flatten_dict item path → ∃ s, kv.2 = Json.str s) ∧
    (∀ (o : List (String × Json)), hasIntLeaf (Json.obj o) = true →
      unflatten_dict (flatten_dict (Json.obj o) "") ≠ o) := by
  refine ⟨fun item path kv hm => flatten_values_str item path kv hm, ?_⟩
  intro o ho heq
  have hni := unflatten_intleaf (flatten_dict (Json.obj o) "")
    (fun kv hm => flatten_values_str _ _ kv hm)
  rw [heq] at hni
  rw [show hasIntLeaf (Json.obj o) = entriesHaveIntLeaf o from rfl, hni] at ho
  exact absurd ho (by simp)

/-- C9 witness: on the concrete dictionary `{"a": 3}` the flattened entry is
`("a", "3")` — a string value — and the round trip rebuilds `{"a": "3"}`,
which differs from the original. -/
theorem flatten_values_strings_witness :
    (∃ s, (("a", Json.str "3") : String × Json).2 = Json.str s) ∧
    unflatten_dict (flatten_dict (Json.obj [("a", Json.int 3)]) "") ≠
      [("a", Json.int 3)] :=
  ⟨flatten_values_strings.1 (Json.obj [("a", Json.int 3)]) ""
      ("a", Json.str "3")
      (show ("a", Json.str "3") ∈ [("a", Json.str "3")] from
        List.mem_singleton.mpr rfl),
    flatten_values_strings.2 [("a", Json.int 3)] rfl⟩

end Ironic
